import Mathlib

/-!
Verification of the roadmap-response parsing and timeline-extraction logic of
`src/app.py` (a Streamlit career-roadmap generator).

Python strings are modelled as `List Char`.  The parts of the program under
study are pure string/data manipulation:

* `generate_roadmap` (lines 55-77): markdown-fence stripping and `json.loads`
  decoding of the LLM response, with distinct empty/malformed failure paths;
* `plot_timeline` (lines 79-127): extraction of Gantt rows from the decoded
  roadmap, including the `(a-b months)` range parse with its `(0, 3)` fallback;
* the session update in `main` (lines 141-148).

`json.loads` is embedded as a recursive-descent parser over `List Char`
following the grammar implemented by CPython's `json` module (objects, arrays,
strings with escapes, numbers by maximal munch of the
`-?(0|[1-9][0-9]*)(\.[0-9]+)?([eE][+-]?[0-9]+)?` shape, the literals
`null/true/false` and the non-standard `NaN`, `Infinity` and negative
`Infinity` accepted by default).  Numeric tokens are kept as their lexemes: no claim depends on
numeric values, so float semantics are not modelled.  Unicode points beyond
ASCII digit/whitespace classification and surrogate-pair recombination of
`\uXXXX` escapes are likewise outside the model (no claim exercises them).
-/

/-! ### Character classes -/

/-- Whitespace stripped by Python `str.strip()` (ASCII part). -/
def isPyWs (c : Char) : Bool :=
  c == ' ' || c == '\t' || c == '\n' || c == '\r' || c == '\x0b' || c == '\x0c'

/-- Whitespace skipped between tokens by `json.loads` (`' \t\n\r'`). -/
def isJsonWs (c : Char) : Bool :=
  c == ' ' || c == '\t' || c == '\n' || c == '\r'

/-- ASCII decimal digit, the digit class used by the C scanner of `json`
and (restricted to ASCII) by `str.isdigit`. -/
def isDig (c : Char) : Bool :=
  c == '0' || c == '1' || c == '2' || c == '3' || c == '4' ||
  c == '5' || c == '6' || c == '7' || c == '8' || c == '9'

theorem jsonWs_pyWs {c : Char} (h : isJsonWs c = true) : isPyWs c = true := by
  simp only [isJsonWs, Bool.or_eq_true, beq_iff_eq] at h
  rcases h with ((h | h) | h) | h <;> subst h <;> rfl

/-! ### Python `str.strip()` and slicing on `List Char` -/

/-- `s.lstrip()` (ASCII whitespace). -/
def lstripWs (s : List Char) : List Char := s.dropWhile isPyWs

/-- `s.rstrip()` (ASCII whitespace). -/
def rstripWs (s : List Char) : List Char := (s.reverse.dropWhile isPyWs).reverse

/-- `s.strip()` (ASCII whitespace). -/
def pstrip (s : List Char) : List Char := rstripWs (lstripWs s)

/-- Python slice `s[a:-b]` (for literal nonnegative `a`, `b`). -/
def pycut (a b : Nat) (s : List Char) : List Char :=
  (s.drop a).take (s.length - (a + b))

/-- Python `s.split(sep)` for a one-character separator: keeps empty pieces
and always returns at least one piece. -/
def pysplit (c : Char) : List Char → List (List Char)
  | [] => [[]]
  | x :: xs =>
    if x = c then [] :: pysplit c xs
    else
      match pysplit c xs with
      | [] => [[x]]
      | p :: ps => (x :: p) :: ps

/-- `s.split(c)[-1]`. -/
def lastPiece (c : Char) (s : List Char) : List Char := (pysplit c s).getLastD []

/-- `s.split(c)[0]`. -/
def firstPiece (c : Char) (s : List Char) : List Char := (pysplit c s).headD []

/-! ### JSON values and the `json.loads` grammar -/

/-- Decoded JSON values.  Objects are insertion-ordered key/value lists with
the `dict` duplicate-key rule applied (later value, first position); numbers
keep their source lexeme. -/
inductive Json where
  | null
  | bool (b : Bool)
  | num (lexeme : List Char)
  | str (s : List Char)
  | arr (elems : List Json)
  | obj (members : List (List Char × Json))

/-- `dict` insertion: an existing key keeps its position and takes the new
value, a new key is appended. -/
def insertKV : List (List Char × Json) → List Char → Json → List (List Char × Json)
  | [], k, v => [(k, v)]
  | (k0, v0) :: rest, k, v =>
    if k0 = k then (k0, v) :: rest else (k0, v0) :: insertKV rest k v

/-- `dict(pairs)`: fold the parse-order pair list through `dict` insertion. -/
def dictOfPairs (ps : List (List Char × Json)) : List (List Char × Json) :=
  ps.foldl (fun acc kv => insertKV acc kv.1 kv.2) []

/-- Skip inter-token JSON whitespace. -/
def skipWs (s : List Char) : List Char := s.dropWhile isJsonWs

def hexVal (c : Char) : Option Nat :=
  if isDig c then some (c.toNat - 48)
  else if c == 'a' || c == 'b' || c == 'c' || c == 'd' || c == 'e' || c == 'f' then
    some (c.toNat - 87)
  else if c == 'A' || c == 'B' || c == 'C' || c == 'D' || c == 'E' || c == 'F' then
    some (c.toNat - 55)
  else none

def hex4 (a b c d : Char) : Option Nat :=
  match hexVal a, hexVal b, hexVal c, hexVal d with
  | some x, some y, some z, some w => some (((x * 16 + y) * 16 + z) * 16 + w)
  | _, _, _, _ => none

/-- Body of a JSON string after the opening quote: decodes up to and including
the closing quote, rejecting raw control characters (strict mode) and invalid
escapes.  `\uXXXX` escapes go through `Char.ofNat` (lone surrogates collapse
to `\0`; no claim depends on them). -/
def parseStringBody : List Char → Option (List Char × List Char)
  | [] => none
  | c :: rest =>
    if c = '"' then some ([], rest)
    else if c = '\\' then
      match rest with
      | [] => none
      | e :: rest2 =>
        if e = 'u' then
          match rest2 with
          | h1 :: h2 :: h3 :: h4 :: rest3 =>
            match hex4 h1 h2 h3 h4 with
            | none => none
            | some n =>
              match parseStringBody rest3 with
              | some (out, r) => some (Char.ofNat n :: out, r)
              | none => none
          | _ => none
        else
          match escChar e with
          | none => none
          | some ch =>
            match parseStringBody rest2 with
            | some (out, r) => some (ch :: out, r)
            | none => none
    else if c.toNat < 32 then none
    else
      match parseStringBody rest with
      | some (out, r) => some (c :: out, r)
      | none => none
where
  /-- The single-character escapes accepted by `json`. -/
  escChar (e : Char) : Option Char :=
    if e = '"' then some '"'
    else if e = '\\' then some '\\'
    else if e = '/' then some '/'
    else if e = 'b' then some '\x08'
    else if e = 'f' then some '\x0c'
    else if e = 'n' then some '\n'
    else if e = 'r' then some '\r'
    else if e = 't' then some '\t'
    else none

/-- Integer part of the number regex: `0 | [1-9][0-9]*`. -/
def parseIntPart : List Char → Option (List Char × List Char)
  | [] => none
  | c :: rest =>
    if c = '0' then some (['0'], rest)
    else if isDig c then some (c :: rest.takeWhile isDig, rest.dropWhile isDig)
    else none

/-- Optional fraction `(\.[0-9]+)?`; like the regex it backtracks to the empty
match when no digit follows the dot. -/
def parseFracPart (s : List Char) : List Char × List Char :=
  match s with
  | '.' :: rest =>
    let ds := rest.takeWhile isDig
    if ds.isEmpty then ([], s) else ('.' :: ds, rest.dropWhile isDig)
  | _ => ([], s)

/-- Optional exponent `([eE][+-]?[0-9]+)?`, backtracking to empty like the
regex. -/
def parseExpPart (s : List Char) : List Char × List Char :=
  match s with
  | e :: sign :: rest2 =>
    if e = 'e' || e = 'E' then
      if sign = '+' || sign = '-' then
        let ds := rest2.takeWhile isDig
        if ds.isEmpty then ([], s) else (e :: sign :: ds, rest2.dropWhile isDig)
      else
        let ds := (sign :: rest2).takeWhile isDig
        if ds.isEmpty then ([], s) else (e :: ds, (sign :: rest2).dropWhile isDig)
    else ([], s)
  | _ => ([], s)

/-- Maximal-munch number lexeme, mirroring the scanner's `NUMBER_RE`. -/
def parseNumberLex (s : List Char) : Option (List Char × List Char) :=
  match s with
  | '-' :: rest =>
    match parseIntPart rest with
    | some (ip, r1) =>
      let fr := parseFracPart r1
      let ex := parseExpPart fr.2
      some ('-' :: (ip ++ fr.1 ++ ex.1), ex.2)
    | none => none
  | _ =>
    match parseIntPart s with
    | some (ip, r1) =>
      let fr := parseFracPart r1
      let ex := parseExpPart fr.2
      some (ip ++ fr.1 ++ ex.1, ex.2)
    | none => none

def lNull : List Char := ['n', 'u', 'l', 'l']
def lTrue : List Char := ['t', 'r', 'u', 'e']
def lFalse : List Char := ['f', 'a', 'l', 's', 'e']
def lNaN : List Char := ['N', 'a', 'N']
def lInf : List Char := ['I', 'n', 'f', 'i', 'n', 'i', 't', 'y']
def lNegInf : List Char := ['-', 'I', 'n', 'f', 'i', 'n', 'i', 't', 'y']

mutual

/-- `scan_once`: one JSON value starting at a non-whitespace position,
returning the value and the unconsumed rest. -/
def parseValue : Nat → List Char → Option (Json × List Char)
  | 0, _ => none
  | Nat.succ fuel, s =>
    match s with
    | [] => none
    | ch :: rest =>
      if ch = '"' then
        match parseStringBody rest with
        | some (out, r) => some (.str out, r)
        | none => none
      else if ch = '{' then
        match skipWs rest with
        | [] => none
        | ch2 :: rest2 =>
          if ch2 = '}' then some (.obj [], rest2)
          else
            match parseObjItems fuel (ch2 :: rest2) with
            | some (pairs, r) => some (.obj (dictOfPairs pairs), r)
            | none => none
      else if ch = '[' then
        match skipWs rest with
        | [] => none
        | ch2 :: rest2 =>
          if ch2 = ']' then some (.arr [], rest2)
          else
            match parseArrItems fuel (ch2 :: rest2) with
            | some (vs, r) => some (.arr vs, r)
            | none => none
      else if lNull.isPrefixOf s then some (.null, s.drop 4)
      else if lTrue.isPrefixOf s then some (.bool true, s.drop 4)
      else if lFalse.isPrefixOf s then some (.bool false, s.drop 5)
      else
        match parseNumberLex s with
        | some (lex, r) => some (.num lex, r)
        | none =>
          if lNaN.isPrefixOf s then some (.num lNaN, s.drop 3)
          else if lInf.isPrefixOf s then some (.num lInf, s.drop 8)
          else if lNegInf.isPrefixOf s then some (.num lNegInf, s.drop 9)
          else none

/-- Comma-separated array items starting at a value position; consumes the
closing `]`. -/
def parseArrItems : Nat → List Char → Option (List Json × List Char)
  | 0, _ => none
  | Nat.succ fuel, s =>
    match parseValue fuel s with
    | none => none
    | some (v, r) =>
      match skipWs r with
      | [] => none
      | ch :: r2 =>
        if ch = ']' then some ([v], r2)
        else if ch = ',' then
          match parseArrItems fuel (skipWs r2) with
          | some (vs, r3) => some (v :: vs, r3)
          | none => none
        else none

/-- Comma-separated object members starting at a key position; consumes the
closing `}` and returns the members in parse order (duplicates included). -/
def parseObjItems : Nat → List Char → Option (List (List Char × Json) × List Char)
  | 0, _ => none
  | Nat.succ fuel, s =>
    match s with
    | '"' :: restk =>
      match parseStringBody restk with
      | none => none
      | some (key, r1) =>
        match skipWs r1 with
        | ':' :: r2 =>
          match parseValue fuel (skipWs r2) with
          | none => none
          | some (v, r3) =>
            match skipWs r3 with
            | [] => none
            | ch :: r4 =>
              if ch = '}' then some ([(key, v)], r4)
              else if ch = ',' then
                match skipWs r4 with
                | '"' :: r5 =>
                  match parseObjItems fuel ('"' :: r5) with
                  | some (kvs, r6) => some ((key, v) :: kvs, r6)
                  | none => none
                | _ => none
              else none
        | _ => none
    | _ => none

end

/-- Non-whitespace character count; the fuel bound below is a generous upper
bound on the parser's recursion depth and is invariant under adding or
removing surrounding whitespace. -/
def countNonWs (s : List Char) : Nat := (s.filter (fun c => !isJsonWs c)).length

/-- `json.loads`: skip leading whitespace, scan one value, then require only
whitespace to remain ("Extra data" otherwise). -/
def json_loads (s : List Char) : Option Json :=
  match parseValue (4 * countNonWs s + 4) (skipWs s) with
  | some (v, r) => if (skipWs r).isEmpty then some v else none
  | none => none

/-! ### The Response Normalizer (`generate_roadmap`, src/app.py lines 55-77) -/

/-- Leading fence marker checked first: `response_text.startswith("```json")`. -/
def fenceJson : List Char := ['`', '`', '`', 'j', 's', 'o', 'n']

/-- Generic fence marker: `response_text.startswith("```")`. -/
def fence3 : List Char := ['`', '`', '`']

/-- Claim C1's generic fence wrapping of a payload: three backticks, a
newline, the payload, a newline and three backticks. -/
def wrapPlain (p : List Char) : List Char :=
  fence3 ++ ('\n' :: (p ++ ('\n' :: fence3)))

/-- Claim C1's language-tagged fence wrapping of a payload. -/
def wrapJson (p : List Char) : List Char :=
  fenceJson ++ ('\n' :: (p ++ ('\n' :: fence3)))

/-- Lines 62-66: `response_text = response.text.strip()`, then if it starts
with a fence marker, slice `[7:-3]` (resp. `[3:-3]`) and strip again.  This is
the exact text handed to `json.loads`. -/
def cleanedText (raw : List Char) : List Char :=
  if fenceJson.isPrefixOf (pstrip raw) then pstrip (pycut 7 3 (pstrip raw))
  else if fence3.isPrefixOf (pstrip raw) then pstrip (pycut 3 3 (pstrip raw))
  else pstrip raw

/-- Outcome of the normalization part of `generate_roadmap`: decoded roadmap,
the `"Empty response from API"` path (line 57), or the `json.JSONDecodeError`
path (lines 71-74), which displays the original raw text. -/
inductive NormOutcome where
  | ok (roadmap : Json)
  | emptyResponse
  | malformedResponse (raw : List Char)

/-- Lines 57-74 of `generate_roadmap` as a function of the raw response text
(`response.text`; `None` is modelled as the empty list, which `not
response.text` treats identically). -/
def normalizeResponse (raw : List Char) : NormOutcome :=
  if raw.isEmpty then .emptyResponse
  else
    match json_loads (cleanedText raw) with
    | some v => .ok v
    | none => .malformedResponse raw

/-- The LLM service call either yields a response text or raises (network,
auth, rate limit, ...); the raised case is caught by `except Exception`
(lines 75-77). -/
inductive ServiceResponse where
  | ok (text : List Char)
  | err (msg : List Char)

/-- `generate_roadmap`'s return value: the decoded roadmap, or `None` on any
of the three failure paths. -/
def generate_roadmap (resp : ServiceResponse) : Option Json :=
  match resp with
  | .err _ => none
  | .ok raw =>
    match normalizeResponse raw with
    | .ok v => some v
    | _ => none

/-- Python truthiness of a decoded JSON value (`if roadmap:` line 145 and
`if not roadmap_data:` line 80).  A numeric lexeme is falsy when it denotes
zero, decided here by its digits (float underflow to `0.0` of huge negative
exponents is not modelled). -/
def pyTruthy : Json → Bool
  | .null => false
  | .bool b => b
  | .num lex => !(lex.any isDig && (lex.filter isDig).all (fun c => c == '0'))
  | .str s => !s.isEmpty
  | .arr es => !es.isEmpty
  | .obj kvs => !kvs.isEmpty

/-- Lines 144-146 of `main`: `roadmap = generate_roadmap(...)`, then
`if roadmap: st.session_state.roadmap = roadmap`.  The previous session
roadmap (possibly absent) survives unless the new value is truthy. -/
def main_store_roadmap (prev : Option Json) (resp : ServiceResponse) : Option Json :=
  match generate_roadmap resp with
  | some v => if pyTruthy v then some v else prev
  | none => prev

/-! ### The Timeline Extractor (`plot_timeline`, src/app.py lines 79-127) -/

/-- Uncaught Python exceptions surfaced by `plot_timeline`'s data access
(the range-parse `try` only catches `ValueError`, `IndexError` and
`AttributeError`). -/
inductive PyErr where
  | keyError (key : List Char)
  | typeError
  | attributeError
deriving DecidableEq

/-- `obj[key]` on a decoded JSON value: `KeyError` on a missing key,
`TypeError` when the value is not a dict (string/int subscripts with a string
key also raise `TypeError`). -/
def dictGetItem (j : Json) (k : List Char) : Except PyErr Json :=
  match j with
  | .obj kvs =>
    match lookupKey kvs k with
    | some v => .ok v
    | none => .error (.keyError k)
  | _ => .error .typeError
where
  lookupKey : List (List Char × Json) → List Char → Option Json
    | [], _ => none
    | (k0, v0) :: rest, k => if k0 == k then some v0 else lookupKey rest k

/-- `obj.get(key, default)`: `AttributeError` when the receiver is not a
dict. -/
def dictGetDefault (j : Json) (k : List Char) (default : Json) : Except PyErr Json :=
  match j with
  | .obj kvs => .ok ((dictGetItem.lookupKey kvs k).getD default)
  | _ => .error .attributeError

/-- Python iteration over a decoded JSON value: list elements, string
characters (as one-character strings), dict keys; other values raise
`TypeError`. -/
def pyIterate (j : Json) : Except PyErr (List Json) :=
  match j with
  | .arr es => .ok es
  | .str s => .ok (s.map (fun ch => Json.str [ch]))
  | .obj kvs => .ok (kvs.map (fun kv => Json.str kv.1))
  | _ => .error .typeError

/-- `sep.join(items)`: every item must be a string, else `TypeError`. -/
def strJoin (sep : List Char) (items : List Json) : Except PyErr (List Char) :=
  match items with
  | [] => .ok []
  | .str s :: rest =>
    match strJoin sep rest with
    | .ok tail => .ok (if rest.isEmpty then s else s ++ sep ++ tail)
    | .error e => .error e
  | _ => .error .typeError

/-- Sequential loop with Python exception propagation: first error aborts. -/
def mapME (f : α → Except PyErr β) : List α → Except PyErr (List β)
  | [] => .ok []
  | a :: as_ =>
    match f a with
    | .error e => .error e
    | .ok b =>
      match mapME f as_ with
      | .error e => .error e
      | .ok bs => .ok (b :: bs)

/-- `split("(")[-1]` then `split(")")[0]`: the text between the last `(` and
the following `)` (line 90). -/
def rangeText (s : List Char) : List Char := firstPiece ')' (lastPiece '(' s)

/-- `int(''.join(filter(str.isdigit, piece)))`: `None` models the
`ValueError` of `int('')`. -/
def digitsToNat (s : List Char) : Option Nat :=
  let ds := s.filter isDig
  if ds.isEmpty then none else some (digitsVal ds)
where
  digitsVal (ds : List Char) : Nat := ds.foldl (fun n c => n * 10 + (c.toNat - 48)) 0

/-- Lines 88-96: the `try` block parsing `"(a-b units)"` out of the phase
label, with the `(0, 3)` fallback on `ValueError` (tuple unpack of fewer than
two `-` pieces, or no digits in a piece), `IndexError`, and `AttributeError`
(non-string label).  It is total: the `except` makes every failure a
fallback. -/
def parse_time_range (phase_name : Json) : Nat × Nat :=
  match phase_name with
  | .str s =>
    let time_range := rangeText s
    match (pysplit '-' time_range).take 2 with
    | [sS, eS] =>
      match digitsToNat sS, digitsToNat eS with
      | some a, some b => (a, b)
      | _, _ => (0, 3)
    | _ => (0, 3)
  | _ => (0, 3)

/-- One entry of `gantt_data` (lines 99-105). -/
structure GanttRow where
  task : Json
  phaseLabel : Json
  start : Nat
  finish : Nat
  milestonesJoined : List Char

/-- Lines 86-105 for a single phase: `phase["phase"]` (outside the `try`, so
a missing key raises), the range parse, then one row per element of
`phase["focus_areas"]`, each row joining `phase["milestones"]` with
newlines.  The milestone lookup and join happen inside the loop, so they are
only evaluated when there is at least one focus area. -/
def phase_records (phase : Json) : Except PyErr (List GanttRow) :=
  match dictGetItem phase (String.toList "phase") with
  | .error e => .error e
  | .ok phase_name =>
    let se := parse_time_range phase_name
    match dictGetItem phase (String.toList "focus_areas") with
    | .error e => .error e
    | .ok fa =>
      match pyIterate fa with
      | .error e => .error e
      | .ok areas =>
        mapME
          (fun area =>
            match dictGetItem phase (String.toList "milestones") with
            | .error e => .error e
            | .ok ms =>
              match pyIterate ms with
              | .error e => .error e
              | .ok items =>
                match strJoin ['\n'] items with
                | .error e => .error e
                | .ok mj =>
                  .ok { task := area, phaseLabel := phase_name, start := se.1,
                        finish := se.2, milestonesJoined := mj })
          areas

/-- Lines 84-105: `gantt_data` built from `roadmap_data.get("timeline", [])`
by looping over the phases. -/
def extract_records (roadmap_data : Json) : Except PyErr (List GanttRow) :=
  match dictGetDefault roadmap_data (String.toList "timeline") (Json.arr []) with
  | .error e => .error e
  | .ok tl =>
    match pyIterate tl with
    | .error e => .error e
    | .ok phases =>
      match mapME phase_records phases with
      | .error e => .error e
      | .ok rows => .ok rows.flatten

/-- Whether `plot_timeline` reached the chart-construction call. -/
inductive PlotOutcome where
  | noRender
  | rendered (rows : List GanttRow)

/-- `plot_timeline` (lines 79-127): early return on a falsy argument (line
80), early return when `gantt_data` is empty (lines 107-108), otherwise the
chart is built from the records. -/
def plot_timeline (roadmap_data : Json) : Except PyErr PlotOutcome :=
  if pyTruthy roadmap_data = false then .ok .noRender
  else
    match extract_records roadmap_data with
    | .error e => .error e
    | .ok rows => .ok (if rows.isEmpty then .noRender else .rendered rows)

/-! ### The section 4.1 response schema (spec-side predicate) -/

/-- Modelled from the spec, section 4.1: the prompt's required shape.  Used
only as a hypothesis selecting the payloads claim C1 quantifies over. -/
def matchesSchema (j : Json) : Bool :=
  match j with
  | .obj kvs =>
    isStrOpt (dictGetItem.lookupKey kvs (String.toList "roadmap_name")) &&
    isStrOpt (dictGetItem.lookupKey kvs (String.toList "gap_analysis")) &&
    (match dictGetItem.lookupKey kvs (String.toList "timeline") with
     | some (.arr ps) => ps.all phaseOk
     | _ => false) &&
    isStrOpt (dictGetItem.lookupKey kvs (String.toList "estimated_time"))
  | _ => false
where
  isStrOpt : Option Json → Bool
    | some (.str _) => true
    | _ => false
  strList : Option Json → Bool
    | some (.arr es) => es.all (fun e => match e with | .str _ => true | _ => false)
    | _ => false
  phaseOk : Json → Bool
    | .obj kvs =>
      isStrOpt (dictGetItem.lookupKey kvs (String.toList "phase")) &&
      strList (dictGetItem.lookupKey kvs (String.toList "focus_areas")) &&
      strList (dictGetItem.lookupKey kvs (String.toList "milestones")) &&
      strList (dictGetItem.lookupKey kvs (String.toList "tasks"))
    | _ => false
/-! ### List helper lemmas -/

/-- Every element of `l` satisfies the Boolean predicate `p`. -/
def AllB (p : Char → Bool) (l : List Char) : Prop := ∀ x ∈ l, p x = true

/-- The head of `l` (if any) falsifies `p`. -/
def HeadStop (p : Char → Bool) : List Char → Prop
  | [] => True
  | y :: _ => p y = false

theorem allB_cons {p : Char → Bool} {a : Char} {l : List Char}
    (h : AllB p (a :: l)) : p a = true ∧ AllB p l :=
  ⟨h a (by simp), fun x hx => h x (by simp [hx])⟩

theorem dropWhile_append_all {p : Char → Bool} {xs : List Char}
    (h : AllB p xs) (ys : List Char) : (xs ++ ys).dropWhile p = ys.dropWhile p := by
  induction xs with
  | nil => rfl
  | cons a as ih =>
    obtain ⟨ha, has⟩ := allB_cons h
    simp only [List.cons_append, List.dropWhile_cons, ha, if_true]
    exact ih has

theorem dropWhile_headstop {p : Char → Bool} {ys : List Char}
    (h : HeadStop p ys) : ys.dropWhile p = ys := by
  cases ys with
  | nil => rfl
  | cons y t =>
    have hy : p y = false := h
    simp [List.dropWhile_cons, hy]

theorem headStop_cons {p : Char → Bool} {y : Char} (t : List Char)
    (h : p y = false) : HeadStop p (y :: t) := h

theorem takeWhile_append_all {p : Char → Bool} {xs : List Char}
    (h : AllB p xs) (ys : List Char) : (xs ++ ys).takeWhile p = xs ++ ys.takeWhile p := by
  induction xs with
  | nil => rfl
  | cons a as ih =>
    obtain ⟨ha, has⟩ := allB_cons h
    simp only [List.cons_append, List.takeWhile_cons, ha, if_true, ih has]

theorem takeWhile_headstop {p : Char → Bool} {ys : List Char}
    (h : HeadStop p ys) : ys.takeWhile p = [] := by
  cases ys with
  | nil => rfl
  | cons y t =>
    have hy : p y = false := h
    simp [List.takeWhile_cons, hy]

theorem takeWhile_stops {p : Char → Bool} {xs ys : List Char}
    (h : AllB p xs) (h2 : HeadStop p ys) :
    (xs ++ ys).takeWhile p = xs ∧ (xs ++ ys).dropWhile p = ys := by
  constructor
  · rw [takeWhile_append_all h, takeWhile_headstop h2, List.append_nil]
  · rw [dropWhile_append_all h, dropWhile_headstop h2]

/-- A list whose last element is not Python whitespace (so `rstrip` leaves
it alone). -/
def GoodTail (c : List Char) : Prop := ∃ i last, c = i ++ [last] ∧ isPyWs last = false

theorem goodTail_append {y : List Char} (x : List Char) (h : GoodTail y) :
    GoodTail (x ++ y) := by
  obtain ⟨i, last, rfl, hl⟩ := h
  exact ⟨x ++ i, last, by rw [List.append_assoc], hl⟩

theorem goodTail_single {ch : Char} (h : isPyWs ch = false) : GoodTail [ch] :=
  ⟨[], ch, rfl, h⟩

theorem rstripWs_ws_append {w : List Char} (z : List Char) (hw : AllB isPyWs w) :
    rstripWs (z ++ w) = rstripWs z := by
  unfold rstripWs
  rw [List.reverse_append, dropWhile_append_all (fun x hx => hw x (List.mem_reverse.mp hx))]

theorem rstripWs_append {c r : List Char} (hr : AllB isPyWs r) (hc : GoodTail c) :
    rstripWs (c ++ r) = c := by
  obtain ⟨i, last, rfl, hl⟩ := hc
  rw [rstripWs_ws_append _ hr]
  unfold rstripWs
  rw [List.reverse_append]
  simp only [List.reverse_cons, List.reverse_nil, List.nil_append, List.singleton_append,
    List.dropWhile_cons, hl]
  simp

theorem pstrip_parts {w c r : List Char} (hw : AllB isPyWs w) (hr : AllB isPyWs r)
    (hh : HeadStop isPyWs c) (ht : GoodTail c) : pstrip (w ++ c ++ r) = c := by
  unfold pstrip lstripWs
  rw [List.append_assoc, dropWhile_append_all hw]
  have hcr : List.dropWhile isPyWs (c ++ r) = c ++ r := by
    cases c with
    | nil => obtain ⟨i, last, h, _⟩ := ht; exact absurd h (by simp)
    | cons ch t =>
      have hch : isPyWs ch = false := hh
      simp [List.dropWhile_cons, hch]
  rw [hcr]
  exact rstripWs_append hr ht

theorem pstrip_ws_wrap {w w' : List Char} (x : List Char)
    (hw : AllB isPyWs w) (hw' : AllB isPyWs w') : pstrip (w ++ x ++ w') = pstrip x := by
  unfold pstrip lstripWs
  rw [List.append_assoc, dropWhile_append_all hw, List.dropWhile_append]
  cases hx : (x.dropWhile isPyWs).isEmpty with
  | true =>
    simp only [hx, if_true]
    rw [List.dropWhile_eq_nil_iff.mpr (fun y hy => hw' y hy)]
    rw [List.isEmpty_iff] at hx
    rw [hx]
  | false =>
    simp only [hx, Bool.false_eq_true, if_false]
    exact rstripWs_ws_append _ hw'

/-! ### `pysplit` lemmas -/

theorem pysplit_cons (c x : Char) (xs : List Char) :
    pysplit c (x :: xs) =
      if x = c then [] :: pysplit c xs
      else
        match pysplit c xs with
        | [] => [[x]]
        | p :: ps => (x :: p) :: ps := rfl

theorem pysplit_ne_nil (c : Char) (s : List Char) : pysplit c s ≠ [] := by
  cases s with
  | nil => simp [pysplit]
  | cons x xs =>
    rw [pysplit_cons]
    by_cases hx : x = c
    · simp [hx]
    · rw [if_neg hx]
      rcases h : pysplit c xs with _ | ⟨p, ps⟩ <;> simp

theorem getLastD_irrel {α : Type} {l : List α} (h : l ≠ []) (d₁ d₂ : α) :
    l.getLastD d₁ = l.getLastD d₂ := by
  cases l with
  | nil => exact absurd rfl h
  | cons a t => rw [List.getLastD_cons, List.getLastD_cons]

theorem pysplit_no_sep {c : Char} {s : List Char} (h : ∀ x ∈ s, x ≠ c) :
    pysplit c s = [s] := by
  induction s with
  | nil => rfl
  | cons x xs ih =>
    rw [pysplit_cons, if_neg (h x (by simp)), ih (fun y hy => h y (by simp [hy]))]

theorem pysplit_first_sep {c : Char} {xs : List Char} (h : ∀ x ∈ xs, x ≠ c)
    (ys : List Char) : pysplit c (xs ++ c :: ys) = xs :: pysplit c ys := by
  induction xs with
  | nil =>
    show pysplit c (c :: ys) = [] :: pysplit c ys
    rw [pysplit_cons, if_pos rfl]
  | cons x t ih =>
    have iht := ih (fun y hy => h y (by simp [hy]))
    show pysplit c (x :: (t ++ c :: ys)) = _
    rw [pysplit_cons, if_neg (h x (by simp)), iht]

theorem pysplit_mem_sep {c : Char} {s : List Char} (h : c ∈ s) :
    2 ≤ (pysplit c s).length := by
  induction s with
  | nil => cases h
  | cons x xs ih =>
    rw [pysplit_cons]
    by_cases hx : x = c
    · rw [if_pos hx]
      rcases hps : pysplit c xs with _ | ⟨p, ps⟩
      · exact absurd hps (pysplit_ne_nil c xs)
      · simp
    · rw [if_neg hx]
      have hmem : c ∈ xs := by
        rcases List.mem_cons.mp h with h1 | h1
        · exact absurd h1.symm hx
        · exact h1
      rcases hps : pysplit c xs with _ | ⟨p, ps⟩
      · exact absurd hps (pysplit_ne_nil c xs)
      · have h2 := ih hmem
        rw [hps] at h2
        simpa using h2

theorem pysplit_last_sep {c : Char} (xs ys : List Char) :
    (pysplit c (xs ++ c :: ys)).getLastD [] = (pysplit c ys).getLastD [] := by
  induction xs with
  | nil =>
    show (pysplit c (c :: ys)).getLastD [] = _
    rw [pysplit_cons, if_pos rfl, List.getLastD_cons]
  | cons x t ih =>
    show (pysplit c (x :: (t ++ c :: ys))).getLastD [] = _
    rw [pysplit_cons]
    by_cases hx : x = c
    · rw [if_pos hx, List.getLastD_cons, ← ih]
    · rw [if_neg hx]
      rcases hps : pysplit c (t ++ c :: ys) with _ | ⟨p, ps⟩
      · exact absurd hps (pysplit_ne_nil c (t ++ c :: ys))
      · have hlen : 2 ≤ (pysplit c (t ++ c :: ys)).length := pysplit_mem_sep (by simp)
        rw [hps] at hlen
        have hpsne : ps ≠ [] := by
          cases ps with
          | nil => simp at hlen
          | cons a b => simp
        rw [hps, List.getLastD_cons] at ih
        show ((x :: p) :: ps).getLastD [] = _
        rw [List.getLastD_cons, ← ih]
        exact getLastD_irrel hpsne (x :: p) p

theorem pysplit_headD {c : Char} (s : List Char) :
    (pysplit c s).headD [] = s.takeWhile (fun x => !(x == c)) := by
  induction s with
  | nil => rfl
  | cons x xs ih =>
    rw [pysplit_cons]
    by_cases hx : x = c
    · subst hx
      simp [List.takeWhile_cons]
    · rw [if_neg hx]
      rcases hps : pysplit c xs with _ | ⟨p, ps⟩
      · exact absurd hps (pysplit_ne_nil c xs)
      · rw [hps] at ih
        simp only [List.headD_cons] at ih
        show ((x :: p) :: ps).headD [] = _
        simp only [List.headD_cons, List.takeWhile_cons]
        have hxc : (!(x == c)) = true := by simp [hx]
        rw [hxc]
        simp only [if_true, ih]

/-! ### Facts about digits and the range parse -/

theorem isDig_cases {c : Char} (h : isDig c = true) :
    c = '0' ∨ c = '1' ∨ c = '2' ∨ c = '3' ∨ c = '4' ∨ c = '5' ∨ c = '6' ∨
    c = '7' ∨ c = '8' ∨ c = '9' := by
  simp only [isDig, Bool.or_eq_true, beq_iff_eq] at h
  tauto

theorem dig_not_special {c : Char} (h : isDig c = true) :
    c ≠ '(' ∧ c ≠ ')' ∧ c ≠ '-' ∧ isPyWs c = false ∧ isJsonWs c = false := by
  rcases isDig_cases h with rfl | rfl | rfl | rfl | rfl | rfl | rfl | rfl | rfl | rfl <;>
    refine ⟨by decide, by decide, by decide, by decide, by decide⟩

theorem lastPiece_split {pre tail : List Char} (h : ∀ x ∈ tail, x ≠ '(') :
    lastPiece '(' (pre ++ '(' :: tail) = tail := by
  unfold lastPiece
  rw [pysplit_last_sep, pysplit_no_sep h]
  rfl

theorem firstPiece_split {T post : List Char} (h : ∀ x ∈ T, x ≠ ')') :
    firstPiece ')' (T ++ ')' :: post) = T := by
  unfold firstPiece
  rw [pysplit_headD]
  exact (takeWhile_stops (fun x hx => by simp [h x hx]) (by simp [HeadStop])).1

theorem digitsToNat_all_dig {a : List Char} (ha : a ≠ []) (hd : AllB isDig a) :
    digitsToNat a = some (digitsToNat.digitsVal a) := by
  unfold digitsToNat
  rw [List.filter_eq_self.mpr hd]
  simp [ha]

theorem digitsToNat_no_dig {s : List Char} (h : ∀ x ∈ s, isDig x = false) :
    digitsToNat s = none := by
  unfold digitsToNat
  have : s.filter isDig = [] := by
    rw [List.filter_eq_nil_iff]
    intro x hx
    simp [h x hx]
  rw [this]
  rfl

theorem parse_time_range_str (s : List Char) :
    parse_time_range (.str s) =
      match (pysplit '-' (rangeText s)).take 2 with
      | [sS, eS] =>
        match digitsToNat sS, digitsToNat eS with
        | some a2, some b2 => (a2, b2)
        | _, _ => (0, 3)
      | _ => (0, 3) := rfl

/-! ### Well-shaped phases and roadmaps (for the extraction claims) -/

/-- A phase carrying the schema keys with text focus areas and milestones,
plus an arbitrary `tasks` value. -/
structure PhaseData where
  label : List Char
  areas : List (List Char)
  mstones : List (List Char)
  tasksVal : Json

def phaseJson (d : PhaseData) : Json :=
  .obj [(String.toList "phase", .str d.label),
        (String.toList "focus_areas", .arr (d.areas.map .str)),
        (String.toList "milestones", .arr (d.mstones.map .str)),
        (String.toList "tasks", d.tasksVal)]

def mkRoadmap (nm ga est : Json) (ps : List PhaseData) : Json :=
  .obj [(String.toList "roadmap_name", nm),
        (String.toList "gap_analysis", ga),
        (String.toList "timeline", .arr (ps.map phaseJson)),
        (String.toList "estimated_time", est)]

/-- Newline join, the expected value of `"\n".join(...)` on a string list. -/
def nlJoin : List (List Char) → List Char
  | [] => []
  | [s] => s
  | s :: t :: rest => s ++ '\n' :: nlJoin (t :: rest)

/-- The record rows `plot_timeline` is expected to emit for one phase. -/
def expectedRows (d : PhaseData) : List GanttRow :=
  d.areas.map (fun a =>
    { task := Json.str a, phaseLabel := Json.str d.label,
      start := (parse_time_range (.str d.label)).1,
      finish := (parse_time_range (.str d.label)).2,
      milestonesJoined := nlJoin d.mstones })

theorem strJoin_strs (xs : List (List Char)) :
    strJoin ['\n'] (xs.map Json.str) = .ok (nlJoin xs) := by
  induction xs with
  | nil => rfl
  | cons s t ih =>
    cases t with
    | nil => rfl
    | cons s2 t2 =>
      show strJoin ['\n'] (Json.str s :: (s2 :: t2).map Json.str) = _
      unfold strJoin
      rw [ih]
      simp [nlJoin]

theorem mapME_ok_map {α β γ : Type} {f : β → Except PyErr γ} {h : α → β} {g : α → γ} :
    ∀ {l : List α}, (∀ a ∈ l, f (h a) = .ok (g a)) → mapME f (l.map h) = .ok (l.map g)
  | [], _ => rfl
  | a :: as_, hall => by
    show mapME f (h a :: as_.map h) = _
    unfold mapME
    rw [hall a (by simp), mapME_ok_map (fun x hx => hall x (by simp [hx]))]
    rfl

theorem phase_records_phaseJson (d : PhaseData) :
    phase_records (phaseJson d) = .ok (expectedRows d) := by
  have hp : dictGetItem (phaseJson d) (String.toList "phase") = .ok (.str d.label) := rfl
  have hf : dictGetItem (phaseJson d) (String.toList "focus_areas") =
      .ok (.arr (d.areas.map .str)) := rfl
  have hm : dictGetItem (phaseJson d) (String.toList "milestones") =
      .ok (.arr (d.mstones.map .str)) := rfl
  unfold phase_records
  simp only [hp, hf, hm, pyIterate, strJoin_strs]
  exact mapME_ok_map (fun a _ => rfl)

theorem extract_records_mkRoadmap (nm ga est : Json) (ps : List PhaseData) :
    extract_records (mkRoadmap nm ga est ps) = .ok (ps.map expectedRows).flatten := by
  have ht : dictGetDefault (mkRoadmap nm ga est ps) (String.toList "timeline") (Json.arr []) =
      .ok (.arr (ps.map phaseJson)) := rfl
  unfold extract_records
  simp only [ht, pyIterate]
  rw [mapME_ok_map (g := expectedRows) (fun d2 _ => phase_records_phaseJson d2)]

/-! ### Claims C4 and C5: the month-range parse -/

theorem parse_time_range_two {s sS eS : List Char} {rest : List (List Char)}
    (h : pysplit '-' (rangeText s) = sS :: eS :: rest) :
    parse_time_range (.str s) =
      match digitsToNat sS, digitsToNat eS with
      | some a2, some b2 => (a2, b2)
      | _, _ => (0, 3) := by
  rw [parse_time_range_str, h]
  rfl

theorem parse_time_range_one {s p : List Char}
    (h : pysplit '-' (rangeText s) = [p]) :
    parse_time_range (.str s) = (0, 3) := by
  rw [parse_time_range_str, h]
  rfl

/-- Claim C4, as stated, is false: the label "A (1-2 months) (x" contains the
well-formed range "(1-2 months)", yet the extractor returns the fallback
(0, 3) rather than (1, 2), because the parse anchors on the last '(' of the
label, which here is inside the trailing text. -/
theorem c4_counterexample :
    parse_time_range (.str (String.toList "A (1-2 months) (x")) = (0, 3) ∧
    parse_time_range (.str (String.toList "A (1-2 months) (x")) ≠ (1, 2) := by
  refine ⟨by decide, by decide⟩

/-- Claim C4 (amended): for a phase label containing a well-formed
"(a-b units)" month range with digit sequences a and b, the extractor
produces startMonth = a and endMonth = b, provided no '(' occurs after the
range's opening parenthesis and the unit text carries no digits or
parentheses; the text before the range is arbitrary. -/
theorem c4_amended (pre a b u post : List Char)
    (ha : a ≠ []) (had : AllB isDig a)
    (hb : b ≠ []) (hbd : AllB isDig b)
    (hu : ∀ x ∈ u, isDig x = false ∧ x ≠ '(' ∧ x ≠ ')')
    (hpost : ∀ x ∈ post, x ≠ '(') :
    parse_time_range (.str (pre ++ '(' :: ((a ++ '-' :: (b ++ u)) ++ ')' :: post))) =
      (digitsToNat.digitsVal a, digitsToNat.digitsVal b) := by
  set T := a ++ '-' :: (b ++ u) with hT
  have htail : ∀ x ∈ T ++ ')' :: post, x ≠ '(' := by
    intro x hx
    rcases List.mem_append.mp hx with hx | hx
    · rw [hT] at hx
      rcases List.mem_append.mp hx with hx | hx
      · exact (dig_not_special (had x hx)).1
      · rcases List.mem_cons.mp hx with rfl | hx
        · decide
        · rcases List.mem_append.mp hx with hx | hx
          · exact (dig_not_special (hbd x hx)).1
          · exact (hu x hx).2.1
    · rcases List.mem_cons.mp hx with rfl | hx
      · decide
      · exact hpost x hx
  have hT2 : ∀ x ∈ T, x ≠ ')' := by
    intro x hx
    rw [hT] at hx
    rcases List.mem_append.mp hx with hx | hx
    · exact (dig_not_special (had x hx)).2.1
    · rcases List.mem_cons.mp hx with rfl | hx
      · decide
      · rcases List.mem_append.mp hx with hx | hx
        · exact (dig_not_special (hbd x hx)).2.1
        · exact (hu x hx).2.2
  have hrt : rangeText (pre ++ '(' :: (T ++ ')' :: post)) = T := by
    unfold rangeText
    rw [lastPiece_split htail, firstPiece_split hT2]
  have hsplit : pysplit '-' T = a :: pysplit '-' (b ++ u) := by
    rw [hT]
    exact pysplit_first_sep (fun x hx => (dig_not_special (had x hx)).2.2.1) (b ++ u)
  rcases hbu : pysplit '-' (b ++ u) with _ | ⟨p, ps⟩
  · exact absurd hbu (pysplit_ne_nil _ _)
  have hp : p = b ++ u.takeWhile (fun x => !(x == '-')) := by
    have hh := pysplit_headD (c := '-') (b ++ u)
    rw [hbu] at hh
    simp only [List.headD_cons] at hh
    rw [hh, takeWhile_append_all (fun x hx => by
      simp [(dig_not_special (hbd x hx)).2.2.1])]
  have hpd : p.filter isDig = b := by
    rw [hp, List.filter_append, List.filter_eq_self.mpr hbd]
    have hnil : (u.takeWhile fun x => !(x == '-')).filter isDig = [] := by
      rw [List.filter_eq_nil_iff]
      intro x hx
      have hxu : x ∈ u := (List.takeWhile_sublist _).subset hx
      simp [(hu x hxu).1]
    rw [hnil, List.append_nil]
  have hbe : b.isEmpty = false := by
    cases b with
    | nil => exact absurd rfl hb
    | cons x t => rfl
  have hdp : digitsToNat p = some (digitsToNat.digitsVal b) := by
    unfold digitsToNat
    rw [hpd]
    simp [hbe]
  have hfull : pysplit '-' (rangeText (pre ++ '(' :: (T ++ ')' :: post))) =
      a :: p :: ps := by
    rw [hrt, hsplit, hbu]
  rw [parse_time_range_two hfull, digitsToNat_all_dig ha had, hdp]

/-- Claim C4 amended, witnessed at the label "Phase 1 (2-5 months)". -/
theorem c4_witness :
    parse_time_range (.str (String.toList "Phase 1 (2-5 months)")) = (2, 5) := by
  have h := c4_amended (String.toList "Phase 1 ") (String.toList "2")
    (String.toList "5") (String.toList " months") [] (by decide)
    (by unfold AllB; decide) (by decide) (by unfold AllB; decide)
    (by decide) (by decide)
  have e1 : String.toList "Phase 1 " ++ '(' :: ((String.toList "2" ++
      '-' :: (String.toList "5" ++ String.toList " months")) ++ ')' :: []) =
      String.toList "Phase 1 (2-5 months)" := by decide
  rw [e1] at h
  rw [h]
  decide

/-- Claim C5, as stated, is false: the label "1-2" lacks parentheses, yet the
extractor does not fall back to (0, 3): splitting on '(' and ')' leaves the
whole label, whose dash pieces are numeric, so (1, 2) is returned. -/
theorem c5_counterexample :
    parse_time_range (.str (String.toList "1-2")) = (1, 2) ∧
    parse_time_range (.str (String.toList "1-2")) ≠ (0, 3) := by
  refine ⟨by decide, by decide⟩

/-- Claim C5 (amended): the extractor returns the fallback (0, 3), without
raising and for that phase only, exactly when the range text between the last
'(' and the next ')' has fewer than two dash pieces, or one of the first two
dash pieces carries no digit; lack of parentheses alone does not trigger the
fallback.  The phase's rows are still produced (with months 0 and 3) and the
per-phase computation succeeds, so later phases are unaffected. -/
theorem c5_amended (s : List Char)
    (h : (pysplit '-' (rangeText s)).length < 2 ∨
         ∃ p q rest, pysplit '-' (rangeText s) = p :: q :: rest ∧
           ((∀ x ∈ p, isDig x = false) ∨ (∀ x ∈ q, isDig x = false))) :
    parse_time_range (.str s) = (0, 3) ∧
    ∀ d : PhaseData, d.label = s →
      phase_records (phaseJson d) = .ok (d.areas.map (fun a =>
        { task := Json.str a, phaseLabel := Json.str s, start := 0, finish := 3,
          milestonesJoined := nlJoin d.mstones })) := by
  have hfall : parse_time_range (.str s) = (0, 3) := by
    rcases h with hlen | ⟨p, q, rest, hps, hdig⟩
    · rcases hps : pysplit '-' (rangeText s) with _ | ⟨p, ps⟩
      · exact absurd hps (pysplit_ne_nil _ _)
      · cases ps with
        | nil => exact parse_time_range_one hps
        | cons q rest =>
          rw [hps] at hlen
          simp only [List.length_cons] at hlen
          omega
    · rw [parse_time_range_two hps]
      rcases hdig with hd | hd
      · rw [digitsToNat_no_dig hd]
      · rcases hdq : digitsToNat p with _ | n <;> rw [digitsToNat_no_dig hd]
  refine ⟨hfall, ?_⟩
  intro d hd
  rw [phase_records_phaseJson d]
  unfold expectedRows
  simp only [hd, hfall]

/-- Claim C5 amended, witnessed at the dash-free label "Foundations" inside a
fully populated phase. -/
theorem c5_witness :
    parse_time_range (.str (String.toList "Foundations")) = (0, 3) ∧
    phase_records (phaseJson ⟨String.toList "Foundations",
        [String.toList "SQL"], [String.toList "m1"], Json.arr []⟩) =
      .ok [{ task := Json.str (String.toList "SQL"),
             phaseLabel := Json.str (String.toList "Foundations"),
             start := 0, finish := 3,
             milestonesJoined := String.toList "m1" }] := by
  have h := c5_amended (String.toList "Foundations") (Or.inl (by decide))
  exact ⟨h.1, h.2 ⟨String.toList "Foundations",
    [String.toList "SQL"], [String.toList "m1"], Json.arr []⟩ rfl⟩

/-! ### Claims C6, C7, C9: record emission and empty cases -/

/-- Claim C6: for a roadmap whose phases carry the keys phase, focus_areas
and milestones (plus tasks), the extractor emits exactly one record per
(phase, focus area) pair, in phase order then focus-area order: task is the
focus-area text, phaseLabel the phase label, start/finish the parsed range,
and milestonesJoined the newline join of that phase's milestones (this is
`expectedRows`); the record count is the sum of the focus-area counts. -/
theorem c6_record_emission (nm ga est : Json) (ps : List PhaseData) :
    extract_records (mkRoadmap nm ga est ps) = .ok (ps.map expectedRows).flatten ∧
    (ps.map expectedRows).flatten.length = (ps.map (fun d => d.areas.length)).sum := by
  refine ⟨extract_records_mkRoadmap nm ga est ps, ?_⟩
  rw [List.length_flatten, List.map_map]
  have hcomp : (List.length ∘ expectedRows) = fun d => d.areas.length := by
    funext d
    simp [expectedRows]
  rw [hcomp]

/-- Claim C7: a roadmap with zero timeline phases yields no records and no
chart render; more generally, whenever extraction produces no records the
outcome is "nothing to render" rather than an error, and the chart- 
construction call is never reached. -/
theorem c7_nothing_to_render :
    (∀ nm ga est : Json, extract_records (mkRoadmap nm ga est []) = .ok [] ∧
      plot_timeline (mkRoadmap nm ga est []) = .ok .noRender) ∧
    (∀ rd : Json, extract_records rd = .ok [] → plot_timeline rd = .ok .noRender) := by
  have hgen : ∀ rd : Json, extract_records rd = .ok [] →
      plot_timeline rd = .ok .noRender := by
    intro rd h
    unfold plot_timeline
    by_cases htr : pyTruthy rd = false
    · simp [htr]
    · rw [if_neg htr, h]
      rfl
  refine ⟨fun nm ga est => ?_, hgen⟩
  have he : extract_records (mkRoadmap nm ga est []) = .ok [] :=
    extract_records_mkRoadmap nm ga est []
  exact ⟨he, hgen _ he⟩

/-- Claim C7 witness: the falsy empty-dict roadmap renders nothing. -/
theorem c7_witness : plot_timeline (Json.obj []) = Except.ok PlotOutcome.noRender :=
  c7_nothing_to_render.2 (Json.obj []) rfl

/-- Claim C9: a decoded roadmap without the "timeline" key is treated as
having an empty timeline: `dict.get` supplies the `[]` default, so no records
are emitted, no error is raised and the chart render is skipped — whereas a
phase object missing its "phase" key raises a KeyError (second conjunct). -/
theorem c9_missing_timeline :
    (∀ kvs : List (List Char × Json),
      dictGetItem.lookupKey kvs (String.toList "timeline") = none →
      extract_records (.obj kvs) = .ok [] ∧ plot_timeline (.obj kvs) = .ok .noRender) ∧
    extract_records (.obj [(String.toList "timeline", .arr [Json.obj []])]) =
      .error (.keyError (String.toList "phase")) := by
  refine ⟨fun kvs h => ?_, rfl⟩
  have he : extract_records (.obj kvs) = .ok [] := by
    unfold extract_records
    simp only [dictGetDefault, h, Option.getD_none, pyIterate]
    rfl
  refine ⟨he, ?_⟩
  unfold plot_timeline
  by_cases htr : pyTruthy (Json.obj kvs) = false
  · simp [htr]
  · rw [if_neg htr, he]
    rfl

/-- Claim C9 witness: a roadmap object carrying only roadmap_name. -/
theorem c9_witness :
    extract_records (.obj [(String.toList "roadmap_name", Json.str [])]) = .ok [] ∧
    plot_timeline (.obj [(String.toList "roadmap_name", Json.str [])]) =
      .ok .noRender :=
  c9_missing_timeline.1 [(String.toList "roadmap_name", Json.str [])] rfl

/-! ### Claims C3, C8, C10: failure modes and the session slot -/

/-- Claim C3: an empty/absent raw response fails with EmptyResponse; a
non-empty raw text that does not decode (judged, as the Normalizer works,
after fence stripping) fails with MalformedResponse carrying the original
raw text for display; neither failure returns any (partial) roadmap. -/
theorem c3_failure_modes (raw : List Char) :
    (raw = [] → normalizeResponse raw = .emptyResponse) ∧
    (raw ≠ [] → json_loads (cleanedText raw) = none →
      normalizeResponse raw = .malformedResponse raw ∧
      ∀ v : Json, normalizeResponse raw ≠ .ok v) := by
  constructor
  · intro h
    subst h
    rfl
  · intro hne hdec
    have hem : raw.isEmpty = false := by
      cases raw with
      | nil => exact absurd rfl hne
      | cons a t => rfl
    have hmal : normalizeResponse raw = .malformedResponse raw := by
      unfold normalizeResponse
      simp only [hem, Bool.false_eq_true, if_false, hdec]
    exact ⟨hmal, fun v hv => by rw [hmal] at hv; exact NormOutcome.noConfusion hv⟩

/-- Claim C3 witness: the empty response and the undecodable text
"not json at all". -/
theorem c3_witness :
    normalizeResponse [] = .emptyResponse ∧
    normalizeResponse (String.toList "not json at all") =
      .malformedResponse (String.toList "not json at all") :=
  ⟨(c3_failure_modes []).1 rfl,
   ((c3_failure_modes (String.toList "not json at all")).2 (by decide) rfl).1⟩

/-- Claim C8: a failed generation attempt — a service-call error, an empty
response or a malformed response — leaves the session roadmap slot exactly
as it was (absent stays absent, a previous value survives); only the success
path can replace it. -/
theorem c8_session_frame (prev : Option Json) (resp : ServiceResponse)
    (h : (∃ m, resp = .err m) ∨
         ∃ raw, resp = .ok raw ∧ (normalizeResponse raw = .emptyResponse ∨
           normalizeResponse raw = .malformedResponse raw)) :
    main_store_roadmap prev resp = prev := by
  have hg : generate_roadmap resp = none := by
    rcases h with ⟨m, rfl⟩ | ⟨raw, rfl, hn⟩
    · rfl
    · show (match normalizeResponse raw with
        | NormOutcome.ok v => some v
        | _ => none) = none
      rcases hn with hn | hn <;> rw [hn]
  unfold main_store_roadmap
  rw [hg]

/-- Claim C8 witness: a service error with a stored roadmap present. -/
theorem c8_witness :
    main_store_roadmap (some (Json.str (String.toList "kept")))
      (.err (String.toList "boom")) = some (Json.str (String.toList "kept")) :=
  c8_session_frame _ _ (Or.inl ⟨_, rfl⟩)

/-- Claim C10: when the decode succeeds but yields a falsy value (such as
the texts "{}" or "null"), `generate_roadmap` returns that value and raises
no error, yet the `if roadmap:` guard in `main` does not replace the stored
session roadmap. -/
theorem c10_falsy_decode (prev : Option Json) (raw : List Char) (v : Json)
    (h1 : normalizeResponse raw = .ok v) (h2 : pyTruthy v = false) :
    generate_roadmap (.ok raw) = some v ∧
    main_store_roadmap prev (.ok raw) = prev := by
  have hg : generate_roadmap (.ok raw) = some v := by
    show (match normalizeResponse raw with
      | NormOutcome.ok v => some v
      | _ => none) = some v
    rw [h1]
  refine ⟨hg, ?_⟩
  unfold main_store_roadmap
  rw [hg]
  simp [h2]

/-- Claim C10 witness: the decoded empty object is kept out of the session. -/
theorem c10_witness :
    generate_roadmap (.ok (String.toList "\x7b\x7d")) = some (Json.obj []) ∧
    main_store_roadmap (some Json.null) (.ok (String.toList "\x7b\x7d")) =
      some Json.null :=
  c10_falsy_decode (some Json.null) (String.toList "\x7b\x7d") (Json.obj []) rfl rfl

/-! ### Claim C2: fence stripping -/

theorem isPrefixOf_append_self (a b : List Char) : a.isPrefixOf (a ++ b) = true := by
  induction a with
  | nil => simp [List.isPrefixOf]
  | cons x xs ih => simp [List.isPrefixOf, ih]

theorem isPrefixOf_append_cancel (a x y : List Char) :
    (a ++ x).isPrefixOf (a ++ y) = x.isPrefixOf y := by
  induction a with
  | nil => rfl
  | cons c cs ih => simp [List.isPrefixOf, ih]

theorem pycut_fence (fence : List Char) {body : List Char} (n : Nat)
    (hn : fence.length = n) :
    pycut n 3 (fence ++ body) = body.take (body.length - 3) := by
  unfold pycut
  rw [← hn, List.drop_left, List.length_append, hn]
  congr 1
  omega

/-- Claim C2, as stated, is false at the raw response consisting of a
leading ```json fence and the payload, but no trailing fence: the code's
`[7:-3]` slice removes the last three characters unconditionally, so the
remainder is not passed to the decoder unaltered — here the intact remainder
decodes, while the normalizer reports MalformedResponse. -/
theorem c2_counterexample :
    cleanedText (String.toList "```json\n\x7b\"a\": 1\x7d") ≠
      pstrip ((String.toList "```json\n\x7b\"a\": 1\x7d").drop 7) ∧
    json_loads (cleanedText (String.toList "```json\n\x7b\"a\": 1\x7d")) = none ∧
    json_loads (pstrip ((String.toList "```json\n\x7b\"a\": 1\x7d").drop 7)) =
      some (Json.obj [(String.toList "a", Json.num (String.toList "1"))]) ∧
    normalizeResponse (String.toList "```json\n\x7b\"a\": 1\x7d") =
      .malformedResponse (String.toList "```json\n\x7b\"a\": 1\x7d") := by
  refine ⟨by decide, rfl, rfl, rfl⟩

/-- Claim C2 (amended): after trimming, a leading ```json (resp. bare ```)
fence marker is stripped together with the final three characters of the
trimmed text — the trailing ``` when one is present, otherwise three payload
characters — and the result is trimmed again before decoding. -/
theorem c2_amended (raw body : List Char) :
    (pstrip raw = fenceJson ++ body →
      cleanedText raw = pstrip (body.take (body.length - 3))) ∧
    (pstrip raw = fence3 ++ body →
      (String.toList "json").isPrefixOf body = false →
      cleanedText raw = pstrip (body.take (body.length - 3))) := by
  constructor
  · intro h
    unfold cleanedText
    rw [h, isPrefixOf_append_self, if_pos rfl, pycut_fence fenceJson 7 rfl]
  · intro h hnj
    unfold cleanedText
    have hfj : fenceJson.isPrefixOf (fence3 ++ body) = false := by
      have : fenceJson = fence3 ++ String.toList "json" := rfl
      rw [this, isPrefixOf_append_cancel, hnj]
    rw [h, hfj, isPrefixOf_append_self, if_pos rfl]
    simp only [Bool.false_eq_true, if_false]
    rw [pycut_fence fence3 3 rfl]

/-- Claim C2 amended, witnessed on a fully fenced response: the trailing
fence (plus surrounding newlines) is removed and the payload survives. -/
theorem c2_witness :
    cleanedText (String.toList "```json\nhi\n```") = String.toList "hi" := by
  have h := (c2_amended (String.toList "```json\nhi\n```")
    (String.toList "\nhi\n```")).1 (by decide)
  rw [h]
  decide

/-! ### Claim C1: parser machinery.  A successful parse consumes a
well-delimited prefix: it starts with a value-start character, ends with a
non-whitespace character, and is insensitive to the unconsumed tail as long
as that tail cannot extend a numeric token. -/

/-- The head of `r` could extend a maximal-munch number lexeme. -/
def numContHead : List Char → Bool
  | [] => false
  | c :: _ => isDig c || c == '.' || c == 'e' || c == 'E'

/-- Characters on which `scan_once` can succeed. -/
def isValueStart (ch : Char) : Bool :=
  ch == '"' || ch == '{' || ch == '[' || ch == 'n' || ch == 't' || ch == 'f' ||
  ch == 'N' || ch == 'I' || ch == '-' || isDig ch

theorem valueStart_facts {ch : Char} (h : isValueStart ch = true) :
    isPyWs ch = false ∧ isJsonWs ch = false ∧ ch ≠ '`' ∧ ch ≠ ']' ∧ ch ≠ '}' := by
  simp only [isValueStart, Bool.or_eq_true, beq_iff_eq] at h
  rcases h with ((((((((h | h) | h) | h) | h) | h) | h) | h) | h) | h
  case inr =>
    rcases isDig_cases h with rfl | rfl | rfl | rfl | rfl | rfl | rfl | rfl | rfl | rfl <;>
      refine ⟨by decide, by decide, by decide, by decide, by decide⟩
  all_goals subst h
  all_goals refine ⟨by decide, by decide, by decide, by decide, by decide⟩

theorem numContHead_cons_false {ch : Char} (t : List Char)
    (h : (isDig ch || ch == '.' || ch == 'e' || ch == 'E') = false) :
    numContHead (ch :: t) = false := h

theorem jsonWs_numCont_false {a : Char} (h : isJsonWs a = true) :
    (isDig a || a == '.' || a == 'e' || a == 'E') = false := by
  simp only [isJsonWs, Bool.or_eq_true, beq_iff_eq] at h
  rcases h with ((h | h) | h) | h <;> subst h <;> decide

theorem numCont_false_ws_append {w x : List Char} (hw : AllB isJsonWs w)
    (hx : numContHead x = false) : numContHead (w ++ x) = false := by
  cases w with
  | nil => exact hx
  | cons a t => exact numContHead_cons_false _ (jsonWs_numCont_false (hw a (by simp)))

theorem allDig_goodTail {l : List Char} (hne : l ≠ []) (hd : AllB isDig l) :
    GoodTail l := by
  rcases List.eq_nil_or_concat l with rfl | ⟨i, last, rfl⟩
  · exact absurd rfl hne
  · refine ⟨i, last, by simp, ?_⟩
    exact (dig_not_special (hd last (by simp))).2.2.2.1

theorem pair_eq {α β : Type} {a c : α} {b d : β} (h : (a, b) = (c, d)) :
    a = c ∧ b = d :=
  ⟨congrArg Prod.fst h, congrArg Prod.snd h⟩

theorem some_pair_eq {α β : Type} {a c : α} {b d : β}
    (h : some (a, b) = some (c, d)) : a = c ∧ b = d := by
  injection h with h1
  exact pair_eq h1

/-! #### The integer-part, fraction and exponent munchers -/

theorem parseIntPart_cons (c : Char) (rest : List Char) :
    parseIntPart (c :: rest) =
      if c = '0' then some (['0'], rest)
      else if isDig c then some (c :: rest.takeWhile isDig, rest.dropWhile isDig)
      else none := rfl

theorem dropWhile_headstop_result (p : Char → Bool) (l : List Char) :
    HeadStop p (l.dropWhile p) := by
  induction l with
  | nil => exact trivial
  | cons a t ih =>
    by_cases ha : p a = true
    · rw [List.dropWhile_cons, if_pos ha]
      exact ih
    · rw [List.dropWhile_cons, if_neg ha]
      have hfa : p a = false := by simpa using ha
      exact hfa

theorem parseIntPart_zero (x : List Char) : parseIntPart ('0' :: x) = some (['0'], x) := rfl

theorem parseIntPart_munch {c : Char} {ds x : List Char} (hc0 : c ≠ '0')
    (hcd : isDig c = true) (hds : AllB isDig ds) (hx : HeadStop isDig x) :
    parseIntPart ((c :: ds) ++ x) = some (c :: ds, x) := by
  show parseIntPart (c :: (ds ++ x)) = _
  rw [parseIntPart_cons, if_neg hc0, if_pos hcd, (takeWhile_stops hds hx).1,
    (takeWhile_stops hds hx).2]

theorem parseIntPart_some {s ip r : List Char} (h : parseIntPart s = some (ip, r)) :
    s = ip ++ r ∧ ip ≠ [] ∧ AllB isDig ip ∧
    (∃ ch t, ip = ch :: t ∧ isDig ch = true) ∧
    ∀ x, HeadStop isDig x → parseIntPart (ip ++ x) = some (ip, x) := by
  cases s with
  | nil => exact absurd h (by simp [parseIntPart])
  | cons c rest =>
    rw [parseIntPart_cons] at h
    by_cases hc : c = '0'
    · subst hc
      rw [if_pos rfl] at h
      obtain ⟨h1, h2⟩ := some_pair_eq h
      subst h1
      subst h2
      refine ⟨rfl, by simp, ?_, ⟨'0', [], rfl, by decide⟩,
        fun x _ => parseIntPart_zero x⟩
      intro x hx
      simp only [List.mem_singleton] at hx
      subst hx
      decide
    · rw [if_neg hc] at h
      by_cases hd : isDig c
      · rw [if_pos hd] at h
        obtain ⟨h1, h2⟩ := some_pair_eq h
        subst h1
        subst h2
        have htw : AllB isDig (rest.takeWhile isDig) :=
          fun x hx => List.mem_takeWhile_imp hx
        refine ⟨?_, by simp, ?_, ⟨c, _, rfl, hd⟩,
          fun x hx => parseIntPart_munch hc hd htw hx⟩
        · rw [List.cons_append, List.takeWhile_append_dropWhile]
        · intro x hx
          rcases List.mem_cons.mp hx with rfl | hx
          · exact hd
          · exact List.mem_takeWhile_imp hx
      · rw [if_neg hd] at h
        exact absurd h (by simp)

/-- Inputs on which the fraction muncher matches emptily. -/
def FracStop : List Char → Prop
  | '.' :: rest => HeadStop isDig rest
  | _ => True

theorem parseFracPart_dot (rest : List Char) :
    parseFracPart ('.' :: rest) =
      if (rest.takeWhile isDig).isEmpty then ([], '.' :: rest)
      else ('.' :: rest.takeWhile isDig, rest.dropWhile isDig) := rfl

theorem parseFracPart_stop {x : List Char} (h : FracStop x) :
    parseFracPart x = ([], x) := by
  unfold parseFracPart
  split
  · rename_i rest
    have hh : HeadStop isDig rest := h
    rw [takeWhile_headstop hh]
    rfl
  · rfl

theorem parseFracPart_munch {ds x : List Char} (hne : ds ≠ []) (hds : AllB isDig ds)
    (hx : HeadStop isDig x) : parseFracPart (('.' :: ds) ++ x) = ('.' :: ds, x) := by
  show parseFracPart ('.' :: (ds ++ x)) = _
  rw [parseFracPart_dot, (takeWhile_stops hds hx).1, (takeWhile_stops hds hx).2]
  have hie : ds.isEmpty = false := by
    cases ds with
    | nil => exact absurd rfl hne
    | cons a t => rfl
  simp [hie]

theorem parseFracPart_some {s fp r : List Char} (h : parseFracPart s = (fp, r)) :
    s = fp ++ r ∧
    (fp = [] ∨ ∃ ds, fp = '.' :: ds ∧ ds ≠ [] ∧ AllB isDig ds ∧ HeadStop isDig r) := by
  unfold parseFracPart at h
  split at h
  · rename_i rest
    by_cases he : (rest.takeWhile isDig).isEmpty
    · rw [if_pos he] at h
      obtain ⟨h1, h2⟩ := pair_eq h
      subst h1
      subst h2
      exact ⟨rfl, Or.inl rfl⟩
    · rw [if_neg he] at h
      obtain ⟨h1, h2⟩ := pair_eq h
      subst h1
      subst h2
      refine ⟨by rw [List.cons_append, List.takeWhile_append_dropWhile], Or.inr ?_⟩
      refine ⟨_, rfl, fun hq => he (by rw [hq]; rfl),
        fun x hx => List.mem_takeWhile_imp hx, dropWhile_headstop_result isDig rest⟩
  · obtain ⟨h1, h2⟩ := pair_eq h
    subst h1
    subst h2
    exact ⟨rfl, Or.inl rfl⟩

theorem dig_not_sign {c : Char} (h : isDig c = true) : c ≠ '+' ∧ c ≠ '-' := by
  rcases isDig_cases h with rfl | rfl | rfl | rfl | rfl | rfl | rfl | rfl | rfl | rfl <;>
    exact ⟨by decide, by decide⟩

theorem parseExpPart_cons2 (e sign : Char) (rest2 : List Char) :
    parseExpPart (e :: sign :: rest2) =
      if e = 'e' || e = 'E' then
        if sign = '+' || sign = '-' then
          if (rest2.takeWhile isDig).isEmpty then ([], e :: sign :: rest2)
          else (e :: sign :: rest2.takeWhile isDig, rest2.dropWhile isDig)
        else
          if ((sign :: rest2).takeWhile isDig).isEmpty then ([], e :: sign :: rest2)
          else (e :: (sign :: rest2).takeWhile isDig, (sign :: rest2).dropWhile isDig)
      else ([], e :: sign :: rest2) := rfl

theorem parseExpPart_stop {x : List Char} (h : numContHead x = false) :
    parseExpPart x = ([], x) := by
  match x with
  | [] => rfl
  | [a] => rfl
  | a :: b :: t =>
    have ha : (isDig a || a == '.' || a == 'e' || a == 'E') = false := h
    have hae : a ≠ 'e' := by
      intro q
      subst q
      simp at ha
    have haE : a ≠ 'E' := by
      intro q
      subst q
      simp at ha
    rw [parseExpPart_cons2, if_neg (by simp [hae, haE])]

theorem parseExpPart_munch_sign {e sign : Char} {ds x : List Char}
    (he : e = 'e' ∨ e = 'E') (hs : sign = '+' ∨ sign = '-')
    (hne : ds ≠ []) (hds : AllB isDig ds) (hx : HeadStop isDig x) :
    parseExpPart ((e :: sign :: ds) ++ x) = (e :: sign :: ds, x) := by
  show parseExpPart (e :: sign :: (ds ++ x)) = _
  have hie : ds.isEmpty = false := by
    cases ds with
    | nil => exact absurd rfl hne
    | cons p q => rfl
  rw [parseExpPart_cons2, if_pos (by rcases he with rfl | rfl <;> simp),
    if_pos (by rcases hs with rfl | rfl <;> simp), (takeWhile_stops hds hx).1,
    (takeWhile_stops hds hx).2, hie]
  rfl

theorem parseExpPart_munch_nosign {e : Char} {ds x : List Char}
    (he : e = 'e' ∨ e = 'E') (hne : ds ≠ []) (hds : AllB isDig ds)
    (hx : HeadStop isDig x) : parseExpPart ((e :: ds) ++ x) = (e :: ds, x) := by
  cases ds with
  | nil => exact absurd rfl hne
  | cons d dt =>
    show parseExpPart (e :: d :: (dt ++ x)) = _
    have hd : isDig d = true := hds d (by simp)
    have hdt : AllB isDig dt := fun y hy => hds y (by simp [hy])
    have h1 : (d :: dt ++ x).takeWhile isDig = d :: dt :=
      (takeWhile_stops hds hx).1
    have h2 : (d :: dt ++ x).dropWhile isDig = x :=
      (takeWhile_stops hds hx).2
    rw [parseExpPart_cons2, if_pos (by rcases he with rfl | rfl <;> simp),
      if_neg (by simp [(dig_not_sign hd).1, (dig_not_sign hd).2])]
    rw [show d :: (dt ++ x) = (d :: dt) ++ x from rfl, h1, h2]
    rfl

theorem parseExpPart_some {s ep r : List Char} (h : parseExpPart s = (ep, r)) :
    s = ep ++ r ∧
    (ep = [] ∨
     (∃ e sign ds, ep = e :: sign :: ds ∧ (e = 'e' ∨ e = 'E') ∧
        (sign = '+' ∨ sign = '-') ∧ ds ≠ [] ∧ AllB isDig ds ∧ HeadStop isDig r) ∨
     (∃ e ds, ep = e :: ds ∧ (e = 'e' ∨ e = 'E') ∧ ds ≠ [] ∧ AllB isDig ds ∧
        HeadStop isDig r)) := by
  match s with
  | [] =>
    obtain ⟨h1, h2⟩ := pair_eq h
    subst h1
    subst h2
    exact ⟨rfl, Or.inl rfl⟩
  | [a] =>
    obtain ⟨h1, h2⟩ := pair_eq h
    subst h1
    subst h2
    exact ⟨rfl, Or.inl rfl⟩
  | a :: b :: t =>
    rw [parseExpPart_cons2] at h
    split at h
    · rename_i hcond
      have hae : a = 'e' ∨ a = 'E' := by simpa using hcond
      split at h
      · rename_i hsign
        have hbs : b = '+' ∨ b = '-' := by simpa using hsign
        split at h
        · obtain ⟨h1, h2⟩ := pair_eq h
          subst h1
          subst h2
          exact ⟨rfl, Or.inl rfl⟩
        · rename_i hne
          obtain ⟨h1, h2⟩ := pair_eq h
          subst h1
          subst h2
          refine ⟨by rw [List.cons_append, List.cons_append,
            List.takeWhile_append_dropWhile], Or.inr (Or.inl ?_)⟩
          refine ⟨a, b, _, rfl, hae, hbs, ?_, fun y hy => List.mem_takeWhile_imp hy,
            dropWhile_headstop_result isDig t⟩
          intro hq
          exact hne (by rw [hq]; rfl)
      · split at h
        · obtain ⟨h1, h2⟩ := pair_eq h
          subst h1
          subst h2
          exact ⟨rfl, Or.inl rfl⟩
        · rename_i hne
          obtain ⟨h1, h2⟩ := pair_eq h
          subst h1
          subst h2
          refine ⟨by rw [List.cons_append, List.takeWhile_append_dropWhile],
            Or.inr (Or.inr ?_)⟩
          refine ⟨a, _, rfl, hae, ?_, fun y hy => List.mem_takeWhile_imp hy,
            dropWhile_headstop_result isDig (b :: t)⟩
          intro hq
          exact hne (by rw [hq]; rfl)
    · obtain ⟨h1, h2⟩ := pair_eq h
      subst h1
      subst h2
      exact ⟨rfl, Or.inl rfl⟩

theorem numCont_head_facts {a : Char} {t : List Char}
    (h : numContHead (a :: t) = false) :
    isDig a = false ∧ a ≠ '.' ∧ a ≠ 'e' ∧ a ≠ 'E' := by
  have ha : (isDig a || a == '.' || a == 'e' || a == 'E') = false := h
  refine ⟨?_, ?_, ?_, ?_⟩
  · by_cases hq : isDig a
    · rw [hq] at ha
      simp at ha
    · simpa using hq
  · intro q
    subst q
    simp at ha
  · intro q
    subst q
    simp at ha
  · intro q
    subst q
    simp at ha

theorem headStop_of_numCont {x : List Char} (h : numContHead x = false) :
    HeadStop isDig x := by
  cases x with
  | nil => exact trivial
  | cons a t => exact (numCont_head_facts h).1

theorem fracStop_not_dot {a : Char} {t : List Char} (h : a ≠ '.') :
    FracStop (a :: t) := by
  unfold FracStop
  split
  · rename_i heq
    injection heq with h1 h2
    exact absurd h1 h
  · exact trivial

theorem fracStop_of_numCont {x : List Char} (h : numContHead x = false) :
    FracStop x := by
  cases x with
  | nil => exact trivial
  | cons a t => exact fracStop_not_dot (numCont_head_facts h).2.1

/-- The shared int-frac-exp pipeline of the number lexer: decomposition,
delimitation, and insensitivity to a non-extending tail. -/
theorem num_core {s0 ip r1 fp r2 ep r3 : List Char}
    (hip : parseIntPart s0 = some (ip, r1))
    (hfr : parseFracPart r1 = (fp, r2))
    (hex : parseExpPart r2 = (ep, r3)) :
    s0 = ip ++ (fp ++ (ep ++ r3)) ∧ GoodTail (ip ++ (fp ++ ep)) ∧
    (∃ ch t, ip = ch :: t ∧ isDig ch = true) ∧
    ∀ r₄, numContHead r₄ = false →
      parseIntPart (ip ++ (fp ++ (ep ++ r₄))) = some (ip, fp ++ (ep ++ r₄)) ∧
      parseFracPart (fp ++ (ep ++ r₄)) = (fp, ep ++ r₄) ∧
      parseExpPart (ep ++ r₄) = (ep, r₄) := by
  obtain ⟨hs0, hipne, hipd, hiphead, hiprepl⟩ := parseIntPart_some hip
  obtain ⟨hr1, hfp⟩ := parseFracPart_some hfr
  obtain ⟨hr2, hep⟩ := parseExpPart_some hex
  have hepstop : HeadStop isDig ep := by
    rcases hep with rfl | ⟨e, sign, ds, rfl, he, _, _, _, _⟩ | ⟨e, ds, rfl, he, _, _, _⟩
    · exact trivial
    · rcases he with rfl | rfl
      · exact (by decide : isDig 'e' = false)
      · exact (by decide : isDig 'E' = false)
    · rcases he with rfl | rfl
      · exact (by decide : isDig 'e' = false)
      · exact (by decide : isDig 'E' = false)
  refine ⟨?_, ?_, hiphead, ?_⟩
  · rw [hs0, hr1, hr2]
  · rcases hep with rfl | ⟨e, sign, ds, rfl, he, hs, hdne, hdd, _⟩ |
      ⟨e, ds, rfl, he, hdne, hdd, _⟩
    · rcases hfp with rfl | ⟨ds, rfl, hdne, hdd, _⟩
      · simpa using allDig_goodTail hipne hipd
      · have hgt : GoodTail ds := allDig_goodTail hdne hdd
        have h2 := goodTail_append (ip ++ ['.']) hgt
        simpa [List.append_assoc] using h2
    · have hgt : GoodTail ds := allDig_goodTail hdne hdd
      have h2 := goodTail_append (ip ++ fp ++ [e, sign]) hgt
      simpa [List.append_assoc] using h2
    · have hgt : GoodTail ds := allDig_goodTail hdne hdd
      have h2 := goodTail_append (ip ++ fp ++ [e]) hgt
      simpa [List.append_assoc] using h2
  · intro r₄ hr₄
    have hstopr4 : HeadStop isDig r₄ := headStop_of_numCont hr₄
    have hexrepl : parseExpPart (ep ++ r₄) = (ep, r₄) := by
      rcases hep with rfl | ⟨e, sign, ds, rfl, he, hs, hdne, hdd, _⟩ |
          ⟨e, ds, rfl, he, hdne, hdd, _⟩
      · rw [List.nil_append]
        exact parseExpPart_stop hr₄
      · exact parseExpPart_munch_sign he hs hdne hdd hstopr4
      · exact parseExpPart_munch_nosign he hdne hdd hstopr4
    have hfrrepl : parseFracPart (fp ++ (ep ++ r₄)) = (fp, ep ++ r₄) := by
      rcases hfp with rfl | ⟨ds, rfl, hdne, hdd, _⟩
      · rw [List.nil_append]
        apply parseFracPart_stop
        rcases hep with rfl | ⟨e, sign, ds, rfl, he, _, _, _, _⟩ |
            ⟨e, ds, rfl, he, _, _, _⟩
        · rw [List.nil_append]
          exact fracStop_of_numCont hr₄
        · exact fracStop_not_dot (by rcases he with rfl | rfl <;> decide)
        · exact fracStop_not_dot (by rcases he with rfl | rfl <;> decide)
      · have hstope : HeadStop isDig (ep ++ r₄) := by
          cases ep with
          | nil => exact hstopr4
          | cons a t => exact hepstop
        exact parseFracPart_munch hdne hdd hstope
    have hipstop : HeadStop isDig (fp ++ (ep ++ r₄)) := by
      rcases hfp with rfl | ⟨ds, rfl, _, _, _⟩
      · rw [List.nil_append]
        cases ep with
        | nil => exact hstopr4
        | cons a t => exact hepstop
      · exact (by decide : isDig '.' = false)
    exact ⟨hiprepl (fp ++ (ep ++ r₄)) hipstop, hfrrepl, hexrepl⟩

theorem parseNumberLex_sign_some {rest ip r1 : List Char}
    (hip : parseIntPart rest = some (ip, r1)) :
    parseNumberLex ('-' :: rest) =
      some ('-' :: (ip ++ (parseFracPart r1).1 ++ (parseExpPart (parseFracPart r1).2).1),
            (parseExpPart (parseFracPart r1).2).2) := by
  show (match parseIntPart rest with
    | some (ip, r1) =>
      some ('-' :: (ip ++ (parseFracPart r1).1 ++ (parseExpPart (parseFracPart r1).2).1),
            (parseExpPart (parseFracPart r1).2).2)
    | none => none) = _
  rw [hip]

theorem parseNumberLex_sign_none {rest : List Char}
    (hip : parseIntPart rest = none) : parseNumberLex ('-' :: rest) = none := by
  show (match parseIntPart rest with
    | some (ip, r1) =>
      some ('-' :: (ip ++ (parseFracPart r1).1 ++ (parseExpPart (parseFracPart r1).2).1),
            (parseExpPart (parseFracPart r1).2).2)
    | none => none) = _
  rw [hip]

theorem parseNumberLex_neg {c : Char} (rest : List Char) (hc : c ≠ '-') :
    parseNumberLex (c :: rest) =
      match parseIntPart (c :: rest) with
      | some (ip, r1) =>
        some (ip ++ (parseFracPart r1).1 ++ (parseExpPart (parseFracPart r1).2).1,
              (parseExpPart (parseFracPart r1).2).2)
      | none => none := by
  unfold parseNumberLex
  split
  · rename_i heq
    injection heq with h1 h2
    exact absurd h1 hc
  · rfl

theorem parseNumberLex_nosign_some {c : Char} {rest ip r1 : List Char} (hc : c ≠ '-')
    (hip : parseIntPart (c :: rest) = some (ip, r1)) :
    parseNumberLex (c :: rest) =
      some (ip ++ (parseFracPart r1).1 ++ (parseExpPart (parseFracPart r1).2).1,
            (parseExpPart (parseFracPart r1).2).2) := by
  rw [parseNumberLex_neg rest hc, hip]

/-- A successful number lex consumes a digit-terminated prefix starting with
a sign or digit, and ignores any non-extending tail. -/
theorem PL_num {s lex r : List Char} (h : parseNumberLex s = some (lex, r)) :
    s = lex ++ r ∧ GoodTail lex ∧
    (∃ ch t, lex = ch :: t ∧ (ch = '-' ∨ isDig ch = true)) ∧
    ∀ r₂, numContHead r₂ = false → parseNumberLex (lex ++ r₂) = some (lex, r₂) := by
  cases s with
  | nil => exact absurd h (by simp [parseNumberLex, parseIntPart])
  | cons c rest =>
    by_cases hc : c = '-'
    · subst hc
      rcases hip : parseIntPart rest with _ | ⟨ip, r1⟩
      · rw [parseNumberLex_sign_none hip] at h
        exact absurd h (by simp)
      · rw [parseNumberLex_sign_some hip] at h
        rcases hfr : parseFracPart r1 with ⟨fp, r2⟩
        rcases hex2 : parseExpPart r2 with ⟨ep, r3⟩
        simp only [hfr, hex2] at h
        obtain ⟨h1, h2⟩ := some_pair_eq h
        subst h1
        subst h2
        obtain ⟨hdec, hgt, hhead, hrepl⟩ := num_core hip hfr hex2
        refine ⟨?_, ?_, ⟨'-', _, rfl, Or.inl rfl⟩, ?_⟩
        · rw [hdec]
          simp [List.append_assoc]
        · have he : ('-' :: (ip ++ fp ++ ep)) = ['-'] ++ (ip ++ (fp ++ ep)) := by
            simp [List.append_assoc]
          rw [he]
          exact goodTail_append _ hgt
        · intro r₂ hnc
          obtain ⟨hi2, hf2, he2⟩ := hrepl r₂ hnc
          have hstep : ('-' :: (ip ++ fp ++ ep)) ++ r₂ =
              '-' :: (ip ++ (fp ++ (ep ++ r₂))) := by
            simp [List.append_assoc]
          rw [hstep, parseNumberLex_sign_some hi2]
          simp only [hf2, he2]
    · rcases hip : parseIntPart (c :: rest) with _ | ⟨ip, r1⟩
      · rw [parseNumberLex_neg rest hc, hip] at h
        exact absurd h (by simp)
      · rw [parseNumberLex_nosign_some hc hip] at h
        rcases hfr : parseFracPart r1 with ⟨fp, r2⟩
        rcases hex2 : parseExpPart r2 with ⟨ep, r3⟩
        simp only [hfr, hex2] at h
        obtain ⟨h1, h2⟩ := some_pair_eq h
        subst h1
        subst h2
        obtain ⟨hdec, hgt, hhead, hrepl⟩ := num_core hip hfr hex2
        obtain ⟨ch, t, hipe, hd⟩ := hhead
        refine ⟨?_, ?_, ⟨ch, t ++ fp ++ ep, ?_, Or.inr hd⟩, ?_⟩
        · rw [hdec]
          simp [List.append_assoc]
        · have he : (ip ++ fp ++ ep) = ip ++ (fp ++ ep) := by
            simp [List.append_assoc]
          rw [he]
          exact hgt
        · rw [hipe]
          simp [List.append_assoc]
        · intro r₂ hnc
          obtain ⟨hi2, hf2, he2⟩ := hrepl r₂ hnc
          have hch : ip ++ (fp ++ (ep ++ r₂)) = ch :: (t ++ (fp ++ (ep ++ r₂))) := by
            rw [hipe]
            rfl
          have hi3 : parseIntPart (ch :: (t ++ (fp ++ (ep ++ r₂)))) =
              some (ip, fp ++ (ep ++ r₂)) := by
            rw [← hch]
            exact hi2
          have hstep : (ip ++ fp ++ ep) ++ r₂ = ch :: (t ++ (fp ++ (ep ++ r₂))) := by
            rw [← hch]
            simp [List.append_assoc]
          rw [hstep, parseNumberLex_nosign_some (dig_not_sign hd).2 hi3]
          simp only [hf2, he2]

set_option maxHeartbeats 2000000 in
theorem parseStringBody_cons (c : Char) (rest : List Char) :
    parseStringBody (c :: rest) =
      if c = '"' then some ([], rest)
      else if c = '\\' then
        match rest with
        | [] => none
        | e :: rest2 =>
          if e = 'u' then
            match rest2 with
            | h1 :: h2 :: h3 :: h4 :: rest3 =>
              match hex4 h1 h2 h3 h4 with
              | none => none
              | some n =>
                match parseStringBody rest3 with
                | some (out, r) => some (Char.ofNat n :: out, r)
                | none => none
            | _ => none
          else
            match parseStringBody.escChar e with
            | none => none
            | some ch =>
              match parseStringBody rest2 with
              | some (out, r) => some (ch :: out, r)
              | none => none
      else if c.toNat < 32 then none
      else
        match parseStringBody rest with
        | some (out, r) => some (c :: out, r)
        | none => none := by
  conv_lhs => rw [parseStringBody.eq_def]

theorem psb_quote (rest : List Char) : parseStringBody ('"' :: rest) = some ([], rest) := by
  rw [parseStringBody_cons, if_pos rfl]

theorem psb_backslash (e : Char) (rest2 : List Char) :
    parseStringBody ('\\' :: e :: rest2) =
      if e = 'u' then
        match rest2 with
        | h1 :: h2 :: h3 :: h4 :: rest3 =>
          match hex4 h1 h2 h3 h4 with
          | none => none
          | some n =>
            match parseStringBody rest3 with
            | some (out, r) => some (Char.ofNat n :: out, r)
            | none => none
        | _ => none
      else
        match parseStringBody.escChar e with
        | none => none
        | some ch =>
          match parseStringBody rest2 with
          | some (out, r) => some (ch :: out, r)
          | none => none := by
  rw [parseStringBody_cons, if_neg (by decide : ¬('\\' = '"')), if_pos rfl]

theorem psb_u4 (a b c d : Char) (rest3 : List Char) :
    parseStringBody ('\\' :: 'u' :: a :: b :: c :: d :: rest3) =
      match hex4 a b c d with
      | none => none
      | some n =>
        match parseStringBody rest3 with
        | some (out, r) => some (Char.ofNat n :: out, r)
        | none => none := by
  rw [psb_backslash, if_pos rfl]

theorem psb_u0 : parseStringBody ['\\', 'u'] = none := by
  rw [psb_backslash, if_pos rfl]

theorem psb_u1 (a : Char) : parseStringBody ['\\', 'u', a] = none := by
  rw [psb_backslash, if_pos rfl]

theorem psb_u2 (a b : Char) : parseStringBody ['\\', 'u', a, b] = none := by
  rw [psb_backslash, if_pos rfl]

theorem psb_u3 (a b c : Char) : parseStringBody ['\\', 'u', a, b, c] = none := by
  rw [psb_backslash, if_pos rfl]

theorem psb_esc {e : Char} (rest2 : List Char) (hu : e ≠ 'u') :
    parseStringBody ('\\' :: e :: rest2) =
      match parseStringBody.escChar e with
      | none => none
      | some ch =>
        match parseStringBody rest2 with
        | some (out, r) => some (ch :: out, r)
        | none => none := by
  rw [psb_backslash, if_neg hu]

theorem psb_plain {c : Char} (rest : List Char) (hq : c ≠ '"') (hb : c ≠ '\\')
    (hctl : ¬(c.toNat < 32)) :
    parseStringBody (c :: rest) =
      match parseStringBody rest with
      | some (out, r) => some (c :: out, r)
      | none => none := by
  rw [parseStringBody_cons, if_neg hq, if_neg hb, if_neg hctl]

/-- A successful string-body parse consumes a quote-terminated prefix and is
insensitive to what follows the closing quote. -/
theorem PL_str_aux : ∀ n : Nat, ∀ s : List Char, s.length ≤ n → ∀ out r,
    parseStringBody s = some (out, r) →
    ∃ cs, s = cs ++ r ∧ GoodTail cs ∧
      ∀ r₂, parseStringBody (cs ++ r₂) = some (out, r₂) := by
  intro n
  induction n with
  | zero =>
    intro s hlen out r h
    cases s with
    | nil => exact absurd h (by simp [parseStringBody])
    | cons a t => simp at hlen
  | succ n ih =>
    intro s hlen out r h
    cases s with
    | nil => exact absurd h (by simp [parseStringBody])
    | cons c rest =>
      by_cases hq : c = '"'
      · subst hq
        rw [psb_quote] at h
        obtain ⟨h1, h2⟩ := some_pair_eq h
        subst h1
        subst h2
        refine ⟨['"'], rfl, goodTail_single (by decide), fun r₂ => ?_⟩
        exact psb_quote r₂
      · by_cases hb : c = '\\'
        · subst hb
          cases rest with
          | nil =>
            rw [show parseStringBody ['\\'] = none from by rw [parseStringBody_cons]; rfl] at h
            exact absurd h (by simp)
          | cons e rest2 =>
            by_cases hu : e = 'u'
            · subst hu
              rcases rest2 with _ | ⟨a, _ | ⟨b, _ | ⟨c2, _ | ⟨d, rest3⟩⟩⟩⟩
              · rw [psb_u0] at h
                exact absurd h (by simp)
              · rw [psb_u1] at h
                exact absurd h (by simp)
              · rw [psb_u2] at h
                exact absurd h (by simp)
              · rw [psb_u3] at h
                exact absurd h (by simp)
              · rw [psb_u4] at h
                rcases hx : hex4 a b c2 d with _ | nn
                · rw [hx] at h
                  exact absurd h (by simp)
                · rw [hx] at h
                  rcases hps : parseStringBody rest3 with _ | ⟨out3, r3⟩
                  · rw [hps] at h
                    exact absurd h (by simp)
                  · rw [hps] at h
                    obtain ⟨h1, h2⟩ := some_pair_eq h
                    subst h1
                    subst h2
                    have hlen3 : rest3.length ≤ n := by
                      simp only [List.length_cons] at hlen
                      omega
                    obtain ⟨c3, hc3, ht3, hrep3⟩ := ih rest3 hlen3 out3 r3 hps
                    refine ⟨'\\' :: 'u' :: a :: b :: c2 :: d :: c3, ?_,
                      goodTail_append ['\\', 'u', a, b, c2, d] ht3, ?_⟩
                    · rw [hc3]
                      rfl
                    · intro r₂
                      show parseStringBody
                        ('\\' :: 'u' :: a :: b :: c2 :: d :: (c3 ++ r₂)) = _
                      rw [psb_u4, hx, hrep3 r₂]
            · rw [psb_esc rest2 hu] at h
              rcases he : parseStringBody.escChar e with _ | ch
              · rw [he] at h
                exact absurd h (by simp)
              · rw [he] at h
                rcases hps : parseStringBody rest2 with _ | ⟨out2, r2⟩
                · rw [hps] at h
                  exact absurd h (by simp)
                · rw [hps] at h
                  obtain ⟨h1, h2⟩ := some_pair_eq h
                  subst h1
                  subst h2
                  have hlen2 : rest2.length ≤ n := by
                    simp only [List.length_cons] at hlen
                    omega
                  obtain ⟨c2, hc2, ht2, hrep2⟩ := ih rest2 hlen2 out2 r2 hps
                  refine ⟨'\\' :: e :: c2, ?_, goodTail_append ['\\', e] ht2, ?_⟩
                  · rw [hc2]
                    rfl
                  · intro r₂
                    show parseStringBody ('\\' :: e :: (c2 ++ r₂)) = _
                    rw [psb_esc (c2 ++ r₂) hu, he, hrep2 r₂]
        · by_cases hctl : c.toNat < 32
          · rw [parseStringBody_cons, if_neg hq, if_neg hb, if_pos hctl] at h
            exact absurd h (by simp)
          · rw [psb_plain rest hq hb hctl] at h
            rcases hps : parseStringBody rest with _ | ⟨out2, r2⟩
            · rw [hps] at h
              exact absurd h (by simp)
            · rw [hps] at h
              obtain ⟨h1, h2⟩ := some_pair_eq h
              subst h1
              subst h2
              have hlen2 : rest.length ≤ n := by
                simp only [List.length_cons] at hlen
                omega
              obtain ⟨c2, hc2, ht2, hrep2⟩ := ih rest hlen2 out2 r2 hps
              refine ⟨c :: c2, ?_, goodTail_append [c] ht2, ?_⟩
              · rw [hc2]
                rfl
              · intro r₂
                show parseStringBody (c :: (c2 ++ r₂)) = _
                rw [psb_plain (c2 ++ r₂) hq hb hctl, hrep2 r₂]

theorem PL_str {s out r : List Char} (h : parseStringBody s = some (out, r)) :
    ∃ cs, s = cs ++ r ∧ GoodTail cs ∧
      ∀ r₂, parseStringBody (cs ++ r₂) = some (out, r₂) :=
  PL_str_aux s.length s le_rfl out r h

/-! #### Unfolding equations and whitespace helpers for the scanners -/

theorem skipWs_decomp (s : List Char) : s = s.takeWhile isJsonWs ++ skipWs s :=
  (List.takeWhile_append_dropWhile isJsonWs s).symm

theorem skipWs_all (s : List Char) : AllB isJsonWs (s.takeWhile isJsonWs) :=
  fun _ hx => List.mem_takeWhile_imp hx

theorem skipWs_stops {w x : List Char} (hw : AllB isJsonWs w)
    (hx : HeadStop isJsonWs x) : skipWs (w ++ x) = x :=
  (takeWhile_stops hw hx).2

theorem isPrefixOf_cons_ne {b a : Char} (bs t : List Char) (hne : b ≠ a) :
    (b :: bs).isPrefixOf (a :: t) = false := by
  simp [List.isPrefixOf, hne]

theorem prefix_decomp {l s : List Char} (h : l.isPrefixOf s = true) :
    s = l ++ s.drop l.length := by
  obtain ⟨t, rfl⟩ := List.isPrefixOf_iff_prefix.mp h
  rw [List.drop_left]

theorem dig_isValueStart {c : Char} (h : isDig c = true) : isValueStart c = true := by
  simp [isValueStart, h]

theorem dig_not_letters {c : Char} (h : isDig c = true) :
    c ≠ '"' ∧ c ≠ '{' ∧ c ≠ '[' ∧ c ≠ 'n' ∧ c ≠ 't' ∧ c ≠ 'f' ∧ c ≠ 'N' ∧ c ≠ 'I' := by
  rcases isDig_cases h with rfl | rfl | rfl | rfl | rfl | rfl | rfl | rfl | rfl | rfl <;>
    exact ⟨by decide, by decide, by decide, by decide, by decide, by decide,
      by decide, by decide⟩

theorem pv_zero (s : List Char) : parseValue 0 s = none := by
  conv_lhs => rw [parseValue.eq_def]

theorem pai_zero (s : List Char) : parseArrItems 0 s = none := by
  conv_lhs => rw [parseArrItems.eq_def]

theorem poi_zero (s : List Char) : parseObjItems 0 s = none := by
  conv_lhs => rw [parseObjItems.eq_def]

theorem pv_nil (fuel : Nat) : parseValue (Nat.succ fuel) [] = none := by
  conv_lhs => rw [parseValue.eq_def]

set_option maxHeartbeats 2000000 in
theorem pv_cons (fuel : Nat) (ch : Char) (rest : List Char) :
    parseValue (Nat.succ fuel) (ch :: rest) =
      if ch = '"' then
        match parseStringBody rest with
        | some (out, r) => some (.str out, r)
        | none => none
      else if ch = '{' then
        match skipWs rest with
        | [] => none
        | ch2 :: rest2 =>
          if ch2 = '}' then some (.obj [], rest2)
          else
            match parseObjItems fuel (ch2 :: rest2) with
            | some (pairs, r) => some (.obj (dictOfPairs pairs), r)
            | none => none
      else if ch = '[' then
        match skipWs rest with
        | [] => none
        | ch2 :: rest2 =>
          if ch2 = ']' then some (.arr [], rest2)
          else
            match parseArrItems fuel (ch2 :: rest2) with
            | some (vs, r) => some (.arr vs, r)
            | none => none
      else if lNull.isPrefixOf (ch :: rest) then some (.null, (ch :: rest).drop 4)
      else if lTrue.isPrefixOf (ch :: rest) then some (.bool true, (ch :: rest).drop 4)
      else if lFalse.isPrefixOf (ch :: rest) then some (.bool false, (ch :: rest).drop 5)
      else
        match parseNumberLex (ch :: rest) with
        | some (lex, r) => some (.num lex, r)
        | none =>
          if lNaN.isPrefixOf (ch :: rest) then some (.num lNaN, (ch :: rest).drop 3)
          else if lInf.isPrefixOf (ch :: rest) then some (.num lInf, (ch :: rest).drop 8)
          else if lNegInf.isPrefixOf (ch :: rest) then
            some (.num lNegInf, (ch :: rest).drop 9)
          else none := by
  conv_lhs => rw [parseValue.eq_def]

theorem pai_succ (fuel : Nat) (s : List Char) :
    parseArrItems (Nat.succ fuel) s =
      match parseValue fuel s with
      | none => none
      | some (v, r) =>
        match skipWs r with
        | [] => none
        | ch :: r2 =>
          if ch = ']' then some ([v], r2)
          else if ch = ',' then
            match parseArrItems fuel (skipWs r2) with
            | some (vs, r3) => some (v :: vs, r3)
            | none => none
          else none := by
  conv_lhs => rw [parseArrItems.eq_def]

theorem poi_succ (fuel : Nat) (s : List Char) :
    parseObjItems (Nat.succ fuel) s =
      match s with
      | '"' :: restk =>
        match parseStringBody restk with
        | none => none
        | some (key, r1) =>
          match skipWs r1 with
          | ':' :: r2 =>
            match parseValue fuel (skipWs r2) with
            | none => none
            | some (v, r3) =>
              match skipWs r3 with
              | [] => none
              | ch :: r4 =>
                if ch = '}' then some ([(key, v)], r4)
                else if ch = ',' then
                  match skipWs r4 with
                  | '"' :: r5 =>
                    match parseObjItems fuel ('"' :: r5) with
                    | some (kvs, r6) => some ((key, v) :: kvs, r6)
                    | none => none
                  | _ => none
                else none
          | _ => none
      | _ => none := by
  conv_lhs => rw [parseObjItems.eq_def]

/-- Induction motive for `parseValue`: a successful scan consumes a
value-start-headed, non-whitespace-terminated prefix and ignores
non-extending tails. -/
def PLvP (fuel : Nat) : Prop :=
  ∀ s v r, parseValue fuel s = some (v, r) →
    ∃ ch ct, s = (ch :: ct) ++ r ∧ isValueStart ch = true ∧ GoodTail (ch :: ct) ∧
      ∀ r₂, numContHead r₂ = false → parseValue fuel ((ch :: ct) ++ r₂) = some (v, r₂)

/-- Induction motive for `parseArrItems`. -/
def PLaP (fuel : Nat) : Prop :=
  ∀ s vs r, parseArrItems fuel s = some (vs, r) →
    ∃ ch ct, s = (ch :: ct) ++ r ∧ isValueStart ch = true ∧ GoodTail (ch :: ct) ∧
      ∀ r₂, numContHead r₂ = false →
        parseArrItems fuel ((ch :: ct) ++ r₂) = some (vs, r₂)

/-- Induction motive for `parseObjItems`. -/
def PLoP (fuel : Nat) : Prop :=
  ∀ s kvs r, parseObjItems fuel s = some (kvs, r) →
    ∃ ct, s = ('"' :: ct) ++ r ∧ GoodTail ('"' :: ct) ∧
      ∀ r₂, numContHead r₂ = false →
        parseObjItems fuel (('"' :: ct) ++ r₂) = some (kvs, r₂)

theorem pai_succ_some {fuel : Nat} {s : List Char} {v : Json} {r1 : List Char}
    (hv : parseValue fuel s = some (v, r1)) :
    parseArrItems (Nat.succ fuel) s =
      match skipWs r1 with
      | [] => none
      | ch :: r2 =>
        if ch = ']' then some ([v], r2)
        else if ch = ',' then
          match parseArrItems fuel (skipWs r2) with
          | some (vs, r3) => some (v :: vs, r3)
          | none => none
        else none := by
  rw [pai_succ, hv]

theorem pai_succ_none {fuel : Nat} {s : List Char} (hv : parseValue fuel s = none) :
    parseArrItems (Nat.succ fuel) s = none := by
  rw [pai_succ, hv]

theorem pai_succ_ws_nil {fuel : Nat} {s : List Char} {v : Json} {r1 : List Char}
    (hv : parseValue fuel s = some (v, r1)) (hsw : skipWs r1 = []) :
    parseArrItems (Nat.succ fuel) s = none := by
  rw [pai_succ_some hv, hsw]

theorem pai_succ_cons {fuel : Nat} {s : List Char} {v : Json} {r1 : List Char}
    {ch2 : Char} {r2 : List Char}
    (hv : parseValue fuel s = some (v, r1)) (hsw : skipWs r1 = ch2 :: r2) :
    parseArrItems (Nat.succ fuel) s =
      if ch2 = ']' then some ([v], r2)
      else if ch2 = ',' then
        match parseArrItems fuel (skipWs r2) with
        | some (vs, r3) => some (v :: vs, r3)
        | none => none
      else none := by
  rw [pai_succ_some hv, hsw]

theorem PLa_succ (fuel : Nat) (ihv : PLvP fuel) (iha : PLaP fuel) :
    PLaP (Nat.succ fuel) := by
  intro s vs r h
  rcases hv : parseValue fuel s with _ | ⟨v, r1⟩
  · rw [pai_succ_none hv] at h
    exact absurd h (by simp)
  · obtain ⟨ch, ct, hdec, hvs1, hgt1, hrep1⟩ := ihv s v r1 hv
    rcases hsw : skipWs r1 with _ | ⟨ch2, r2⟩
    · rw [pai_succ_ws_nil hv hsw] at h
      exact absurd h (by simp)
    · rw [pai_succ_cons hv hsw] at h
      have hr1 : r1 = r1.takeWhile isJsonWs ++ (ch2 :: r2) := by
        rw [← hsw]
        exact skipWs_decomp r1
      set w1 := r1.takeWhile isJsonWs with hw1def
      have hw1 : AllB isJsonWs w1 := skipWs_all r1
      by_cases hcb : ch2 = ']'
      · subst hcb
        rw [if_pos rfl] at h
        obtain ⟨h1, h2⟩ := some_pair_eq h
        subst h1
        subst h2
        refine ⟨ch, ct ++ (w1 ++ [']']), ?_, hvs1, ?_, ?_⟩
        · rw [hdec, hr1]
          simp [List.append_assoc]
        · have he : ch :: (ct ++ (w1 ++ [']'])) = (ch :: (ct ++ w1)) ++ [']'] := by
            simp [List.append_assoc]
          rw [he]
          exact ⟨_, ']', rfl, by decide⟩
        · intro r₂ hnc
          have hcond : numContHead (w1 ++ (']' :: r₂)) = false :=
            numCont_false_ws_append hw1 (numContHead_cons_false _ (by decide))
          have hv2 : parseValue fuel (ch :: ((ct ++ (w1 ++ [']'])) ++ r₂)) =
              some (v, w1 ++ (']' :: r₂)) := by
            have h0 := hrep1 (w1 ++ (']' :: r₂)) hcond
            have he : (ch :: ct) ++ (w1 ++ (']' :: r₂)) =
                ch :: ((ct ++ (w1 ++ [']'])) ++ r₂) := by
              simp [List.append_assoc]
            rw [he] at h0
            exact h0
          have hsw2 : skipWs (w1 ++ (']' :: r₂)) = ']' :: r₂ :=
            skipWs_stops hw1 (headStop_cons _ (by decide))
          show parseArrItems (Nat.succ fuel) (ch :: ((ct ++ (w1 ++ [']'])) ++ r₂)) = _
          rw [pai_succ_cons hv2 hsw2, if_pos rfl]
      · rw [if_neg hcb] at h
        by_cases hcc : ch2 = ','
        · subst hcc
          rw [if_pos rfl] at h
          rcases hai : parseArrItems fuel (skipWs r2) with _ | ⟨vs2, r3⟩
          · rw [hai] at h
            exact absurd h (by simp)
          · rw [hai] at h
            obtain ⟨h1, h2⟩ := some_pair_eq h
            subst h1
            subst h2
            obtain ⟨ch3, ct3, hdec3, hvs3, hgt3, hrep3⟩ := iha (skipWs r2) vs2 r3 hai
            have hr2 : r2 = r2.takeWhile isJsonWs ++ ((ch3 :: ct3) ++ r3) := by
              conv_lhs => rw [skipWs_decomp r2]
              rw [hdec3]
            set w2 := r2.takeWhile isJsonWs with hw2def
            have hw2 : AllB isJsonWs w2 := skipWs_all r2
            refine ⟨ch, ct ++ (w1 ++ (',' :: (w2 ++ (ch3 :: ct3)))), ?_, hvs1, ?_, ?_⟩
            · rw [hdec, hr1, hr2]
              simp [List.append_assoc]
            · have he : ch :: (ct ++ (w1 ++ (',' :: (w2 ++ (ch3 :: ct3))))) =
                  (ch :: (ct ++ (w1 ++ (',' :: w2)))) ++ (ch3 :: ct3) := by
                simp [List.append_assoc]
              rw [he]
              exact goodTail_append _ hgt3
            · intro r₂ hnc
              have hcond : numContHead
                  (w1 ++ (',' :: (w2 ++ ((ch3 :: ct3) ++ r₂)))) = false :=
                numCont_false_ws_append hw1 (numContHead_cons_false _ (by decide))
              have hv2 : parseValue fuel
                  (ch :: ((ct ++ (w1 ++ (',' :: (w2 ++ (ch3 :: ct3))))) ++ r₂)) =
                  some (v, w1 ++ (',' :: (w2 ++ ((ch3 :: ct3) ++ r₂)))) := by
                have h0 := hrep1 (w1 ++ (',' :: (w2 ++ ((ch3 :: ct3) ++ r₂)))) hcond
                have he : (ch :: ct) ++ (w1 ++ (',' :: (w2 ++ ((ch3 :: ct3) ++ r₂)))) =
                    ch :: ((ct ++ (w1 ++ (',' :: (w2 ++ (ch3 :: ct3))))) ++ r₂) := by
                  simp [List.append_assoc]
                rw [he] at h0
                exact h0
              have hsw1b : skipWs (w1 ++ (',' :: (w2 ++ ((ch3 :: ct3) ++ r₂)))) =
                  ',' :: (w2 ++ ((ch3 :: ct3) ++ r₂)) :=
                skipWs_stops hw1 (headStop_cons _ (by decide))
              have hsw2b : skipWs (w2 ++ ((ch3 :: ct3) ++ r₂)) = (ch3 :: ct3) ++ r₂ :=
                skipWs_stops hw2 (headStop_cons (ct3 ++ r₂) (valueStart_facts hvs3).2.1)
              show parseArrItems (Nat.succ fuel)
                (ch :: ((ct ++ (w1 ++ (',' :: (w2 ++ (ch3 :: ct3))))) ++ r₂)) = _
              rw [pai_succ_cons hv2 hsw1b, if_neg (by decide : ¬(',' = ']')),
                if_pos rfl, hsw2b, hrep3 r₂ hnc]
        · rw [if_neg hcc] at h
          exact absurd h (by simp)

theorem bool_ne_true {b : Bool} (h : b = false) : ¬ b = true := by
  simp [h]

theorem parseIntPart_nondig {c : Char} (x : List Char) (h0 : ¬ c = '0')
    (hd : ¬ isDig c = true) : parseIntPart (c :: x) = none := by
  rw [parseIntPart_cons, if_neg h0, if_neg hd]

theorem parseNumberLex_headN (x : List Char) : parseNumberLex ('N' :: x) = none := by
  rw [parseNumberLex_neg x (by decide),
    parseIntPart_nondig x (by decide) (by decide)]

theorem parseNumberLex_headI (x : List Char) : parseNumberLex ('I' :: x) = none := by
  rw [parseNumberLex_neg x (by decide),
    parseIntPart_nondig x (by decide) (by decide)]

theorem parseNumberLex_negI (x : List Char) :
    parseNumberLex ('-' :: ('I' :: x)) = none :=
  parseNumberLex_sign_none (parseIntPart_nondig x (by decide) (by decide))

set_option maxHeartbeats 2000000 in
theorem poi_succ_key (fuel : Nat) (restk : List Char) :
    parseObjItems (Nat.succ fuel) ('"' :: restk) =
      match parseStringBody restk with
      | none => none
      | some (key, r1) =>
        match skipWs r1 with
        | ':' :: r2 =>
          match parseValue fuel (skipWs r2) with
          | none => none
          | some (v, r3) =>
            match skipWs r3 with
            | [] => none
            | ch :: r4 =>
              if ch = '}' then some ([(key, v)], r4)
              else if ch = ',' then
                match skipWs r4 with
                | '"' :: r5 =>
                  match parseObjItems fuel ('"' :: r5) with
                  | some (kvs, r6) => some ((key, v) :: kvs, r6)
                  | none => none
                | _ => none
              else none
        | _ => none := by
  rw [poi_succ]
  rfl

theorem poi_succ_nil (fuel : Nat) : parseObjItems (Nat.succ fuel) [] = none := by
  conv_lhs => rw [parseObjItems.eq_def]

theorem poi_succ_nonquote {fuel : Nat} {c0 : Char} {restk : List Char}
    (h : ¬ c0 = '"') : parseObjItems (Nat.succ fuel) (c0 :: restk) = none := by
  rw [poi_succ]
  split
  · rename_i rk heq
    injection heq with h1 h2
    exact absurd h1 h
  · rfl

theorem poi_key_none {fuel : Nat} {restk : List Char}
    (hk : parseStringBody restk = none) :
    parseObjItems (Nat.succ fuel) ('"' :: restk) = none := by
  rw [poi_succ_key, hk]

theorem poi_key_some {fuel : Nat} {restk key r1 : List Char}
    (hk : parseStringBody restk = some (key, r1)) :
    parseObjItems (Nat.succ fuel) ('"' :: restk) =
      match skipWs r1 with
      | ':' :: r2 =>
        match parseValue fuel (skipWs r2) with
        | none => none
        | some (v, r3) =>
          match skipWs r3 with
          | [] => none
          | ch :: r4 =>
            if ch = '}' then some ([(key, v)], r4)
            else if ch = ',' then
              match skipWs r4 with
              | '"' :: r5 =>
                match parseObjItems fuel ('"' :: r5) with
                | some (kvs, r6) => some ((key, v) :: kvs, r6)
                | none => none
              | _ => none
            else none
      | _ => none := by
  rw [poi_succ_key, hk]

theorem poi_key_ws_nil {fuel : Nat} {restk key r1 : List Char}
    (hk : parseStringBody restk = some (key, r1)) (h1 : skipWs r1 = []) :
    parseObjItems (Nat.succ fuel) ('"' :: restk) = none := by
  rw [poi_key_some hk, h1]

theorem poi_key_notcolon {fuel : Nat} {restk key r1 : List Char} {cc : Char}
    {r2 : List Char} (hk : parseStringBody restk = some (key, r1))
    (h1 : skipWs r1 = cc :: r2) (hcc : ¬ cc = ':') :
    parseObjItems (Nat.succ fuel) ('"' :: restk) = none := by
  rw [poi_key_some hk, h1]
  split
  · rename_i r2' heq
    injection heq with hh _
    exact absurd hh hcc
  · rfl

theorem poi_colon {fuel : Nat} {restk key r1 r2 : List Char}
    (hk : parseStringBody restk = some (key, r1)) (h1 : skipWs r1 = ':' :: r2) :
    parseObjItems (Nat.succ fuel) ('"' :: restk) =
      match parseValue fuel (skipWs r2) with
      | none => none
      | some (v, r3) =>
        match skipWs r3 with
        | [] => none
        | ch :: r4 =>
          if ch = '}' then some ([(key, v)], r4)
          else if ch = ',' then
            match skipWs r4 with
            | '"' :: r5 =>
              match parseObjItems fuel ('"' :: r5) with
              | some (kvs, r6) => some ((key, v) :: kvs, r6)
              | none => none
            | _ => none
          else none := by
  rw [poi_key_some hk, h1]
  rfl

theorem poi_val_none {fuel : Nat} {restk key r1 r2 : List Char}
    (hk : parseStringBody restk = some (key, r1)) (h1 : skipWs r1 = ':' :: r2)
    (hv : parseValue fuel (skipWs r2) = none) :
    parseObjItems (Nat.succ fuel) ('"' :: restk) = none := by
  rw [poi_colon hk h1, hv]

theorem poi_val_some {fuel : Nat} {restk key r1 r2 : List Char} {v : Json}
    {r3 : List Char} (hk : parseStringBody restk = some (key, r1))
    (h1 : skipWs r1 = ':' :: r2)
    (hv : parseValue fuel (skipWs r2) = some (v, r3)) :
    parseObjItems (Nat.succ fuel) ('"' :: restk) =
      match skipWs r3 with
      | [] => none
      | ch :: r4 =>
        if ch = '}' then some ([(key, v)], r4)
        else if ch = ',' then
          match skipWs r4 with
          | '"' :: r5 =>
            match parseObjItems fuel ('"' :: r5) with
            | some (kvs, r6) => some ((key, v) :: kvs, r6)
            | none => none
          | _ => none
        else none := by
  rw [poi_colon hk h1, hv]

theorem poi_val_ws_nil {fuel : Nat} {restk key r1 r2 : List Char} {v : Json}
    {r3 : List Char} (hk : parseStringBody restk = some (key, r1))
    (h1 : skipWs r1 = ':' :: r2) (hv : parseValue fuel (skipWs r2) = some (v, r3))
    (h3 : skipWs r3 = []) :
    parseObjItems (Nat.succ fuel) ('"' :: restk) = none := by
  rw [poi_val_some hk h1 hv, h3]

theorem poi_val_cons {fuel : Nat} {restk key r1 r2 : List Char} {v : Json}
    {r3 : List Char} {ch : Char} {r4 : List Char}
    (hk : parseStringBody restk = some (key, r1)) (h1 : skipWs r1 = ':' :: r2)
    (hv : parseValue fuel (skipWs r2) = some (v, r3))
    (h3 : skipWs r3 = ch :: r4) :
    parseObjItems (Nat.succ fuel) ('"' :: restk) =
      if ch = '}' then some ([(key, v)], r4)
      else if ch = ',' then
        match skipWs r4 with
        | '"' :: r5 =>
          match parseObjItems fuel ('"' :: r5) with
          | some (kvs, r6) => some ((key, v) :: kvs, r6)
          | none => none
        | _ => none
      else none := by
  rw [poi_val_some hk h1 hv, h3]

theorem poi_close {fuel : Nat} {restk key r1 r2 : List Char} {v : Json}
    {r3 r4 : List Char}
    (hk : parseStringBody restk = some (key, r1)) (h1 : skipWs r1 = ':' :: r2)
    (hv : parseValue fuel (skipWs r2) = some (v, r3))
    (h3 : skipWs r3 = '}' :: r4) :
    parseObjItems (Nat.succ fuel) ('"' :: restk) = some ([(key, v)], r4) := by
  rw [poi_val_cons hk h1 hv h3, if_pos rfl]

theorem poi_comma_quote {fuel : Nat} {restk key r1 r2 : List Char} {v : Json}
    {r3 r4 r5 : List Char}
    (hk : parseStringBody restk = some (key, r1)) (h1 : skipWs r1 = ':' :: r2)
    (hv : parseValue fuel (skipWs r2) = some (v, r3))
    (h3 : skipWs r3 = ',' :: r4) (h4 : skipWs r4 = '"' :: r5) :
    parseObjItems (Nat.succ fuel) ('"' :: restk) =
      match parseObjItems fuel ('"' :: r5) with
      | some (kvs, r6) => some ((key, v) :: kvs, r6)
      | none => none := by
  rw [poi_val_cons hk h1 hv h3, if_neg (by decide : ¬(',' = '}')), if_pos rfl, h4]
  rfl

theorem poi_comma_ws_nil {fuel : Nat} {restk key r1 r2 : List Char} {v : Json}
    {r3 r4 : List Char}
    (hk : parseStringBody restk = some (key, r1)) (h1 : skipWs r1 = ':' :: r2)
    (hv : parseValue fuel (skipWs r2) = some (v, r3))
    (h3 : skipWs r3 = ',' :: r4) (h4 : skipWs r4 = []) :
    parseObjItems (Nat.succ fuel) ('"' :: restk) = none := by
  rw [poi_val_cons hk h1 hv h3, if_neg (by decide : ¬(',' = '}')), if_pos rfl, h4]

theorem poi_comma_notquote {fuel : Nat} {restk key r1 r2 : List Char} {v : Json}
    {r3 r4 : List Char} {c5 : Char} {r5 : List Char}
    (hk : parseStringBody restk = some (key, r1)) (h1 : skipWs r1 = ':' :: r2)
    (hv : parseValue fuel (skipWs r2) = some (v, r3))
    (h3 : skipWs r3 = ',' :: r4) (h4 : skipWs r4 = c5 :: r5) (hq : ¬ c5 = '"') :
    parseObjItems (Nat.succ fuel) ('"' :: restk) = none := by
  rw [poi_val_cons hk h1 hv h3, if_neg (by decide : ¬(',' = '}')), if_pos rfl, h4]
  split
  · rename_i r5' heq
    injection heq with hh _
    exact absurd hh hq
  · rfl

theorem PLo_succ (fuel : Nat) (ihv : PLvP fuel) (iho : PLoP fuel) :
    PLoP (Nat.succ fuel) := by
  intro s kvs r h
  rcases s with _ | ⟨c0, restk⟩
  · rw [poi_succ_nil] at h
    exact absurd h (by simp)
  · by_cases hc0 : c0 = '"'
    swap
    · rw [poi_succ_nonquote hc0] at h
      exact absurd h (by simp)
    subst hc0
    rcases hk : parseStringBody restk with _ | ⟨key, r1⟩
    · rw [poi_key_none hk] at h
      exact absurd h (by simp)
    obtain ⟨cs, hcs, hgts, hkrep⟩ := PL_str hk
    rcases hsw1 : skipWs r1 with _ | ⟨cc, r2⟩
    · rw [poi_key_ws_nil hk hsw1] at h
      exact absurd h (by simp)
    by_cases hcc : cc = ':'
    swap
    · rw [poi_key_notcolon hk hsw1 hcc] at h
      exact absurd h (by simp)
    subst hcc
    have hr1 : r1 = r1.takeWhile isJsonWs ++ (':' :: r2) := by
      conv_lhs => rw [skipWs_decomp r1]
      rw [hsw1]
    set w1 := r1.takeWhile isJsonWs with hw1def
    have hw1 : AllB isJsonWs w1 := skipWs_all r1
    rcases hv : parseValue fuel (skipWs r2) with _ | ⟨v, r3⟩
    · rw [poi_val_none hk hsw1 hv] at h
      exact absurd h (by simp)
    obtain ⟨ch3, ct3, hdec3, hvs3, hgt3, hrep3⟩ := ihv _ v r3 hv
    have hr2 : r2 = r2.takeWhile isJsonWs ++ ((ch3 :: ct3) ++ r3) := by
      conv_lhs => rw [skipWs_decomp r2]
      rw [hdec3]
    set w2 := r2.takeWhile isJsonWs with hw2def
    have hw2 : AllB isJsonWs w2 := skipWs_all r2
    rcases hsw3 : skipWs r3 with _ | ⟨ch4, r4⟩
    · rw [poi_val_ws_nil hk hsw1 hv hsw3] at h
      exact absurd h (by simp)
    have hr3 : r3 = r3.takeWhile isJsonWs ++ (ch4 :: r4) := by
      conv_lhs => rw [skipWs_decomp r3]
      rw [hsw3]
    set w3 := r3.takeWhile isJsonWs with hw3def
    have hw3 : AllB isJsonWs w3 := skipWs_all r3
    by_cases hb : ch4 = '}'
    · subst hb
      rw [poi_close hk hsw1 hv hsw3] at h
      obtain ⟨h1, h2⟩ := some_pair_eq h
      subst h1
      subst h2
      refine ⟨cs ++ (w1 ++ (':' :: (w2 ++ ((ch3 :: ct3) ++ (w3 ++ ['}']))))),
        ?_, ?_, ?_⟩
      · rw [hcs, hr1, hr2, hr3]
        simp [List.append_assoc]
      · have he : '"' :: (cs ++ (w1 ++ (':' :: (w2 ++
            ((ch3 :: ct3) ++ (w3 ++ ['}'])))))) =
            ('"' :: (cs ++ (w1 ++ (':' :: (w2 ++ ((ch3 :: ct3) ++ w3)))))) ++ ['}'] := by
          simp [List.append_assoc]
        rw [he]
        exact ⟨_, '}', rfl, by decide⟩
      · intro r₂ hnc
        have he1 : (cs ++ (w1 ++ (':' :: (w2 ++
            ((ch3 :: ct3) ++ (w3 ++ ['}'])))))) ++ r₂ =
            cs ++ (w1 ++ (':' :: (w2 ++ ((ch3 :: ct3) ++ (w3 ++ ('}' :: r₂)))))) := by
          simp [List.append_assoc]
        show parseObjItems (Nat.succ fuel)
          ('"' :: ((cs ++ (w1 ++ (':' :: (w2 ++
            ((ch3 :: ct3) ++ (w3 ++ ['}'])))))) ++ r₂)) = _
        rw [he1]
        have hk2 : parseStringBody
            (cs ++ (w1 ++ (':' :: (w2 ++ ((ch3 :: ct3) ++ (w3 ++ ('}' :: r₂))))))) =
            some (key, w1 ++ (':' :: (w2 ++ ((ch3 :: ct3) ++ (w3 ++ ('}' :: r₂)))))) :=
          hkrep _
        have hs1 : skipWs (w1 ++ (':' :: (w2 ++
            ((ch3 :: ct3) ++ (w3 ++ ('}' :: r₂)))))) =
            ':' :: (w2 ++ ((ch3 :: ct3) ++ (w3 ++ ('}' :: r₂)))) :=
          skipWs_stops hw1 (headStop_cons _ (by decide))
        have hnc3 : numContHead (w3 ++ ('}' :: r₂)) = false :=
          numCont_false_ws_append hw3 (numContHead_cons_false _ (by decide))
        have hv2 : parseValue fuel
            (skipWs (w2 ++ ((ch3 :: ct3) ++ (w3 ++ ('}' :: r₂))))) =
            some (v, w3 ++ ('}' :: r₂)) := by
          have hsw : skipWs (w2 ++ ((ch3 :: ct3) ++ (w3 ++ ('}' :: r₂)))) =
              (ch3 :: ct3) ++ (w3 ++ ('}' :: r₂)) :=
            skipWs_stops hw2 (headStop_cons (ct3 ++ (w3 ++ ('}' :: r₂)))
              (valueStart_facts hvs3).2.1)
          rw [hsw]
          exact hrep3 _ hnc3
        have hs3 : skipWs (w3 ++ ('}' :: r₂)) = '}' :: r₂ :=
          skipWs_stops hw3 (headStop_cons _ (by decide))
        exact poi_close hk2 hs1 hv2 hs3
    · by_cases hm : ch4 = ','
      swap
      · rw [poi_val_cons hk hsw1 hv hsw3, if_neg hb, if_neg hm] at h
        exact absurd h (by simp)
      subst hm
      rcases hsw4 : skipWs r4 with _ | ⟨c5, r5⟩
      · rw [poi_comma_ws_nil hk hsw1 hv hsw3 hsw4] at h
        exact absurd h (by simp)
      by_cases hq5 : c5 = '"'
      swap
      · rw [poi_comma_notquote hk hsw1 hv hsw3 hsw4 hq5] at h
        exact absurd h (by simp)
      subst hq5
      rw [poi_comma_quote hk hsw1 hv hsw3 hsw4] at h
      rcases hoi : parseObjItems fuel ('"' :: r5) with _ | ⟨kvs2, r6⟩
      · rw [hoi] at h
        exact absurd h (by simp)
      rw [hoi] at h
      obtain ⟨h1, h2⟩ := some_pair_eq h
      subst h1
      subst h2
      obtain ⟨ct6, hdec6, hgt6, hrep6⟩ := iho _ kvs2 r6 hoi
      have hr5 : r5 = ct6 ++ r6 := by
        have h9 : '"' :: r5 = '"' :: (ct6 ++ r6) := hdec6
        injection h9 with h9a h9b
      have hr4 : r4 = r4.takeWhile isJsonWs ++ ('"' :: r5) := by
        conv_lhs => rw [skipWs_decomp r4]
        rw [hsw4]
      set w4 := r4.takeWhile isJsonWs with hw4def
      have hw4 : AllB isJsonWs w4 := skipWs_all r4
      refine ⟨cs ++ (w1 ++ (':' :: (w2 ++ ((ch3 :: ct3) ++
        (w3 ++ (',' :: (w4 ++ ('"' :: ct6)))))))), ?_, ?_, ?_⟩
      · rw [hcs, hr1, hr2, hr3, hr4, hr5]
        simp [List.append_assoc]
      · have he : '"' :: (cs ++ (w1 ++ (':' :: (w2 ++ ((ch3 :: ct3) ++
            (w3 ++ (',' :: (w4 ++ ('"' :: ct6))))))))) =
            ('"' :: (cs ++ (w1 ++ (':' :: (w2 ++ ((ch3 :: ct3) ++
              (w3 ++ (',' :: w4)))))))) ++ ('"' :: ct6) := by
          simp [List.append_assoc]
        rw [he]
        exact goodTail_append _ hgt6
      · intro r₂ hnc
        have he1 : (cs ++ (w1 ++ (':' :: (w2 ++ ((ch3 :: ct3) ++
            (w3 ++ (',' :: (w4 ++ ('"' :: ct6))))))))) ++ r₂ =
            cs ++ (w1 ++ (':' :: (w2 ++ ((ch3 :: ct3) ++
              (w3 ++ (',' :: (w4 ++ ('"' :: (ct6 ++ r₂))))))))) := by
          simp [List.append_assoc]
        show parseObjItems (Nat.succ fuel)
          ('"' :: ((cs ++ (w1 ++ (':' :: (w2 ++ ((ch3 :: ct3) ++
            (w3 ++ (',' :: (w4 ++ ('"' :: ct6))))))))) ++ r₂)) = _
        rw [he1]
        have hk2 : parseStringBody
            (cs ++ (w1 ++ (':' :: (w2 ++ ((ch3 :: ct3) ++
              (w3 ++ (',' :: (w4 ++ ('"' :: (ct6 ++ r₂)))))))))) =
            some (key, w1 ++ (':' :: (w2 ++ ((ch3 :: ct3) ++
              (w3 ++ (',' :: (w4 ++ ('"' :: (ct6 ++ r₂))))))))) :=
          hkrep _
        have hs1 : skipWs (w1 ++ (':' :: (w2 ++ ((ch3 :: ct3) ++
            (w3 ++ (',' :: (w4 ++ ('"' :: (ct6 ++ r₂))))))))) =
            ':' :: (w2 ++ ((ch3 :: ct3) ++
              (w3 ++ (',' :: (w4 ++ ('"' :: (ct6 ++ r₂))))))) :=
          skipWs_stops hw1 (headStop_cons _ (by decide))
        have hnc3 : numContHead (w3 ++ (',' :: (w4 ++ ('"' :: (ct6 ++ r₂))))) = false :=
          numCont_false_ws_append hw3 (numContHead_cons_false _ (by decide))
        have hv2 : parseValue fuel (skipWs (w2 ++ ((ch3 :: ct3) ++
            (w3 ++ (',' :: (w4 ++ ('"' :: (ct6 ++ r₂)))))))) =
            some (v, w3 ++ (',' :: (w4 ++ ('"' :: (ct6 ++ r₂))))) := by
          have hsw : skipWs (w2 ++ ((ch3 :: ct3) ++
              (w3 ++ (',' :: (w4 ++ ('"' :: (ct6 ++ r₂))))))) =
              (ch3 :: ct3) ++ (w3 ++ (',' :: (w4 ++ ('"' :: (ct6 ++ r₂))))) :=
            skipWs_stops hw2 (headStop_cons
              (ct3 ++ (w3 ++ (',' :: (w4 ++ ('"' :: (ct6 ++ r₂))))))
              (valueStart_facts hvs3).2.1)
          rw [hsw]
          exact hrep3 _ hnc3
        have hs3 : skipWs (w3 ++ (',' :: (w4 ++ ('"' :: (ct6 ++ r₂))))) =
            ',' :: (w4 ++ ('"' :: (ct6 ++ r₂))) :=
          skipWs_stops hw3 (headStop_cons _ (by decide))
        have hs4 : skipWs (w4 ++ ('"' :: (ct6 ++ r₂))) = '"' :: (ct6 ++ r₂) :=
          skipWs_stops hw4 (headStop_cons _ (by decide))
        have hoi2 : parseObjItems fuel ('"' :: (ct6 ++ r₂)) = some (kvs2, r₂) :=
          hrep6 r₂ hnc
        rw [poi_comma_quote hk2 hs1 hv2 hs3 hs4, hoi2]

theorem pv_quote (fuel : Nat) (rest : List Char) :
    parseValue (Nat.succ fuel) ('"' :: rest) =
      match parseStringBody rest with
      | some (out, r) => some (Json.str out, r)
      | none => none := by
  rw [pv_cons, if_pos rfl]

theorem pv_brace_ws_nil {fuel : Nat} {rest : List Char} (hsw : skipWs rest = []) :
    parseValue (Nat.succ fuel) ('{' :: rest) = none := by
  rw [pv_cons, if_neg (by decide : ¬('{' = '"')), if_pos rfl, hsw]

theorem pv_brace_cons {fuel : Nat} {rest : List Char} {ch2 : Char}
    {rest2 : List Char} (hsw : skipWs rest = ch2 :: rest2) :
    parseValue (Nat.succ fuel) ('{' :: rest) =
      if ch2 = '}' then some (Json.obj [], rest2)
      else
        match parseObjItems fuel (ch2 :: rest2) with
        | some (pairs, r) => some (Json.obj (dictOfPairs pairs), r)
        | none => none := by
  rw [pv_cons, if_neg (by decide : ¬('{' = '"')), if_pos rfl, hsw]

theorem pv_bracket_ws_nil {fuel : Nat} {rest : List Char} (hsw : skipWs rest = []) :
    parseValue (Nat.succ fuel) ('[' :: rest) = none := by
  rw [pv_cons, if_neg (by decide : ¬('[' = '"')), if_neg (by decide : ¬('[' = '{')),
    if_pos rfl, hsw]

theorem pv_bracket_cons {fuel : Nat} {rest : List Char} {ch2 : Char}
    {rest2 : List Char} (hsw : skipWs rest = ch2 :: rest2) :
    parseValue (Nat.succ fuel) ('[' :: rest) =
      if ch2 = ']' then some (Json.arr [], rest2)
      else
        match parseArrItems fuel (ch2 :: rest2) with
        | some (vs, r) => some (Json.arr vs, r)
        | none => none := by
  rw [pv_cons, if_neg (by decide : ¬('[' = '"')), if_neg (by decide : ¬('[' = '{')),
    if_pos rfl, hsw]

theorem pv_other {fuel : Nat} {ch : Char} (rest : List Char)
    (h1 : ¬ ch = '"') (h2 : ¬ ch = '{') (h3 : ¬ ch = '[') :
    parseValue (Nat.succ fuel) (ch :: rest) =
      if lNull.isPrefixOf (ch :: rest) then some (Json.null, (ch :: rest).drop 4)
      else if lTrue.isPrefixOf (ch :: rest) then
        some (Json.bool true, (ch :: rest).drop 4)
      else if lFalse.isPrefixOf (ch :: rest) then
        some (Json.bool false, (ch :: rest).drop 5)
      else
        match parseNumberLex (ch :: rest) with
        | some (lex, r) => some (Json.num lex, r)
        | none =>
          if lNaN.isPrefixOf (ch :: rest) then some (Json.num lNaN, (ch :: rest).drop 3)
          else if lInf.isPrefixOf (ch :: rest) then
            some (Json.num lInf, (ch :: rest).drop 8)
          else if lNegInf.isPrefixOf (ch :: rest) then
            some (Json.num lNegInf, (ch :: rest).drop 9)
          else none := by
  rw [pv_cons, if_neg h1, if_neg h2, if_neg h3]

theorem pv_keywords {fuel : Nat} {ch : Char} {rest : List Char}
    (h1 : ¬ ch = '"') (h2 : ¬ ch = '{') (h3 : ¬ ch = '[')
    (hn : ¬ lNull.isPrefixOf (ch :: rest) = true)
    (ht : ¬ lTrue.isPrefixOf (ch :: rest) = true)
    (hf : ¬ lFalse.isPrefixOf (ch :: rest) = true)
    (hnum : parseNumberLex (ch :: rest) = none) :
    parseValue (Nat.succ fuel) (ch :: rest) =
      if lNaN.isPrefixOf (ch :: rest) then some (Json.num lNaN, (ch :: rest).drop 3)
      else if lInf.isPrefixOf (ch :: rest) then
        some (Json.num lInf, (ch :: rest).drop 8)
      else if lNegInf.isPrefixOf (ch :: rest) then
        some (Json.num lNegInf, (ch :: rest).drop 9)
      else none := by
  rw [pv_other rest h1 h2 h3, if_neg hn, if_neg ht, if_neg hf, hnum]

theorem PLv_succ (fuel : Nat) (iha : PLaP fuel) (iho : PLoP fuel) :
    PLvP (Nat.succ fuel) := by
  intro s v r h
  rcases s with _ | ⟨ch, rest⟩
  · rw [pv_nil] at h
    exact absurd h (by simp)
  by_cases hq : ch = '"'
  · subst hq
    rw [pv_quote] at h
    rcases hps : parseStringBody rest with _ | ⟨out, r1⟩
    · rw [hps] at h
      exact absurd h (by simp)
    rw [hps] at h
    obtain ⟨h1, h2⟩ := some_pair_eq h
    subst h1
    subst h2
    obtain ⟨cs, hcs, hgt, hrep⟩ := PL_str hps
    refine ⟨'"', cs, ?_, by decide, ?_, ?_⟩
    · simp [hcs]
    · exact goodTail_append ['"'] hgt
    · intro r₂ hnc
      show parseValue (Nat.succ fuel) ('"' :: (cs ++ r₂)) = some (Json.str out, r₂)
      rw [pv_quote, hrep r₂]
  by_cases hb : ch = '{'
  · subst hb
    rcases hsw : skipWs rest with _ | ⟨ch2, rest2⟩
    · rw [pv_brace_ws_nil hsw] at h
      exact absurd h (by simp)
    rw [pv_brace_cons hsw] at h
    have hr : rest = rest.takeWhile isJsonWs ++ (ch2 :: rest2) := by
      conv_lhs => rw [skipWs_decomp rest]
      rw [hsw]
    set w := rest.takeWhile isJsonWs with hwdef
    have hw : AllB isJsonWs w := skipWs_all rest
    by_cases hc2 : ch2 = '}'
    · subst hc2
      rw [if_pos rfl] at h
      obtain ⟨h1, h2⟩ := some_pair_eq h
      subst h1
      subst h2
      refine ⟨'{', w ++ ['}'], ?_, by decide, ?_, ?_⟩
      · rw [hr]
        simp [List.append_assoc]
      · exact ⟨'{' :: w, '}', by simp, by decide⟩
      · intro r₂ hnc
        have hsw2 : skipWs ((w ++ ['}']) ++ r₂) = '}' :: r₂ := by
          have he : (w ++ ['}']) ++ r₂ = w ++ ('}' :: r₂) := by
            simp [List.append_assoc]
          rw [he]
          exact skipWs_stops hw (headStop_cons _ (by decide))
        show parseValue (Nat.succ fuel) ('{' :: ((w ++ ['}']) ++ r₂)) = _
        rw [pv_brace_cons hsw2, if_pos rfl]
    · rw [if_neg hc2] at h
      rcases hoi : parseObjItems fuel (ch2 :: rest2) with _ | ⟨pairs, r6⟩
      · rw [hoi] at h
        exact absurd h (by simp)
      rw [hoi] at h
      obtain ⟨h1, h2⟩ := some_pair_eq h
      subst h1
      subst h2
      obtain ⟨ct6, hdec6, hgt6, hrep6⟩ := iho _ pairs r6 hoi
      have h9 : ch2 :: rest2 = '"' :: (ct6 ++ r6) := hdec6
      injection h9 with h9a h9b
      subst h9a
      refine ⟨'{', w ++ ('"' :: ct6), ?_, by decide, ?_, ?_⟩
      · rw [hr, h9b]
        simp [List.append_assoc]
      · have he : '{' :: (w ++ ('"' :: ct6)) = ('{' :: w) ++ ('"' :: ct6) := by
          simp
        rw [he]
        exact goodTail_append _ hgt6
      · intro r₂ hnc
        have hsw2 : skipWs ((w ++ ('"' :: ct6)) ++ r₂) = '"' :: (ct6 ++ r₂) := by
          have he : (w ++ ('"' :: ct6)) ++ r₂ = w ++ ('"' :: (ct6 ++ r₂)) := by
            simp [List.append_assoc]
          rw [he]
          exact skipWs_stops hw (headStop_cons _ (by decide))
        have hoi2 : parseObjItems fuel ('"' :: (ct6 ++ r₂)) = some (pairs, r₂) :=
          hrep6 r₂ hnc
        show parseValue (Nat.succ fuel) ('{' :: ((w ++ ('"' :: ct6)) ++ r₂)) = _
        rw [pv_brace_cons hsw2, if_neg (by decide : ¬('"' = '}')), hoi2]
  by_cases ha : ch = '['
  · subst ha
    rcases hsw : skipWs rest with _ | ⟨ch2, rest2⟩
    · rw [pv_bracket_ws_nil hsw] at h
      exact absurd h (by simp)
    rw [pv_bracket_cons hsw] at h
    have hr : rest = rest.takeWhile isJsonWs ++ (ch2 :: rest2) := by
      conv_lhs => rw [skipWs_decomp rest]
      rw [hsw]
    set w := rest.takeWhile isJsonWs with hwdef
    have hw : AllB isJsonWs w := skipWs_all rest
    by_cases hc2 : ch2 = ']'
    · subst hc2
      rw [if_pos rfl] at h
      obtain ⟨h1, h2⟩ := some_pair_eq h
      subst h1
      subst h2
      refine ⟨'[', w ++ [']'], ?_, by decide, ?_, ?_⟩
      · rw [hr]
        simp [List.append_assoc]
      · exact ⟨'[' :: w, ']', by simp, by decide⟩
      · intro r₂ hnc
        have hsw2 : skipWs ((w ++ [']']) ++ r₂) = ']' :: r₂ := by
          have he : (w ++ [']']) ++ r₂ = w ++ (']' :: r₂) := by
            simp [List.append_assoc]
          rw [he]
          exact skipWs_stops hw (headStop_cons _ (by decide))
        show parseValue (Nat.succ fuel) ('[' :: ((w ++ [']']) ++ r₂)) = _
        rw [pv_bracket_cons hsw2, if_pos rfl]
    · rw [if_neg hc2] at h
      rcases hai : parseArrItems fuel (ch2 :: rest2) with _ | ⟨vs, r6⟩
      · rw [hai] at h
        exact absurd h (by simp)
      rw [hai] at h
      obtain ⟨h1, h2⟩ := some_pair_eq h
      subst h1
      subst h2
      obtain ⟨ch3, ct3, hdec3, hvs3, hgt3, hrep3⟩ := iha _ vs r6 hai
      have h9 : ch2 :: rest2 = ch3 :: (ct3 ++ r6) := hdec3
      injection h9 with h9a h9b
      subst h9a
      refine ⟨'[', w ++ (ch2 :: ct3), ?_, by decide, ?_, ?_⟩
      · rw [hr, h9b]
        simp [List.append_assoc]
      · have he : '[' :: (w ++ (ch2 :: ct3)) = ('[' :: w) ++ (ch2 :: ct3) := by
          simp
        rw [he]
        exact goodTail_append _ hgt3
      · intro r₂ hnc
        have hsw2 : skipWs ((w ++ (ch2 :: ct3)) ++ r₂) = ch2 :: (ct3 ++ r₂) := by
          have he : (w ++ (ch2 :: ct3)) ++ r₂ = w ++ (ch2 :: (ct3 ++ r₂)) := by
            simp [List.append_assoc]
          rw [he]
          exact skipWs_stops hw (headStop_cons _ (valueStart_facts hvs3).2.1)
        have hai2 : parseArrItems fuel (ch2 :: (ct3 ++ r₂)) = some (vs, r₂) :=
          hrep3 r₂ hnc
        show parseValue (Nat.succ fuel) ('[' :: ((w ++ (ch2 :: ct3)) ++ r₂)) = _
        rw [pv_bracket_cons hsw2,
          if_neg (fun he => (valueStart_facts hvs3).2.2.2.1 he), hai2]
  rw [pv_other rest hq hb ha] at h
  by_cases hn : lNull.isPrefixOf (ch :: rest) = true
  · rw [if_pos hn] at h
    obtain ⟨h1, h2⟩ := some_pair_eq h
    subst h1
    subst h2
    have hd : ch :: rest = lNull ++ ((ch :: rest).drop 4) := prefix_decomp hn
    refine ⟨'n', ['u', 'l', 'l'], hd, by decide,
      ⟨['n', 'u', 'l'], 'l', rfl, by decide⟩, ?_⟩
    intro r₂ hnc
    show parseValue (Nat.succ fuel) ('n' :: (['u', 'l', 'l'] ++ r₂)) =
      some (Json.null, r₂)
    rw [pv_other _ (by decide) (by decide) (by decide),
      if_pos (show lNull.isPrefixOf ('n' :: (['u', 'l', 'l'] ++ r₂)) = true from
        isPrefixOf_append_self lNull r₂)]
    rfl
  rw [if_neg hn] at h
  by_cases ht : lTrue.isPrefixOf (ch :: rest) = true
  · rw [if_pos ht] at h
    obtain ⟨h1, h2⟩ := some_pair_eq h
    subst h1
    subst h2
    have hd : ch :: rest = lTrue ++ ((ch :: rest).drop 4) := prefix_decomp ht
    refine ⟨'t', ['r', 'u', 'e'], hd, by decide,
      ⟨['t', 'r', 'u'], 'e', rfl, by decide⟩, ?_⟩
    intro r₂ hnc
    show parseValue (Nat.succ fuel) ('t' :: (['r', 'u', 'e'] ++ r₂)) =
      some (Json.bool true, r₂)
    rw [pv_other _ (by decide) (by decide) (by decide),
      if_neg (bool_ne_true
        (show lNull.isPrefixOf ('t' :: (['r', 'u', 'e'] ++ r₂)) = false from
          isPrefixOf_cons_ne _ _ (by decide))),
      if_pos (show lTrue.isPrefixOf ('t' :: (['r', 'u', 'e'] ++ r₂)) = true from
        isPrefixOf_append_self lTrue r₂)]
    rfl
  rw [if_neg ht] at h
  by_cases hf : lFalse.isPrefixOf (ch :: rest) = true
  · rw [if_pos hf] at h
    obtain ⟨h1, h2⟩ := some_pair_eq h
    subst h1
    subst h2
    have hd : ch :: rest = lFalse ++ ((ch :: rest).drop 5) := prefix_decomp hf
    refine ⟨'f', ['a', 'l', 's', 'e'], hd, by decide,
      ⟨['f', 'a', 'l', 's'], 'e', rfl, by decide⟩, ?_⟩
    intro r₂ hnc
    show parseValue (Nat.succ fuel) ('f' :: (['a', 'l', 's', 'e'] ++ r₂)) =
      some (Json.bool false, r₂)
    rw [pv_other _ (by decide) (by decide) (by decide),
      if_neg (bool_ne_true
        (show lNull.isPrefixOf ('f' :: (['a', 'l', 's', 'e'] ++ r₂)) = false from
          isPrefixOf_cons_ne _ _ (by decide))),
      if_neg (bool_ne_true
        (show lTrue.isPrefixOf ('f' :: (['a', 'l', 's', 'e'] ++ r₂)) = false from
          isPrefixOf_cons_ne _ _ (by decide))),
      if_pos (show lFalse.isPrefixOf ('f' :: (['a', 'l', 's', 'e'] ++ r₂)) = true from
        isPrefixOf_append_self lFalse r₂)]
    rfl
  rw [if_neg hf] at h
  rcases hnum : parseNumberLex (ch :: rest) with _ | ⟨lex, rn⟩
  · rw [hnum] at h
    by_cases hN : lNaN.isPrefixOf (ch :: rest) = true
    · rw [if_pos hN] at h
      obtain ⟨h1, h2⟩ := some_pair_eq h
      subst h1
      subst h2
      have hd : ch :: rest = lNaN ++ ((ch :: rest).drop 3) := prefix_decomp hN
      refine ⟨'N', ['a', 'N'], hd, by decide,
        ⟨['N', 'a'], 'N', rfl, by decide⟩, ?_⟩
      intro r₂ hnc
      show parseValue (Nat.succ fuel) ('N' :: (['a', 'N'] ++ r₂)) =
        some (Json.num lNaN, r₂)
      rw [pv_keywords (by decide) (by decide) (by decide)
          (bool_ne_true
            (show lNull.isPrefixOf ('N' :: (['a', 'N'] ++ r₂)) = false from
              isPrefixOf_cons_ne _ _ (by decide)))
          (bool_ne_true
            (show lTrue.isPrefixOf ('N' :: (['a', 'N'] ++ r₂)) = false from
              isPrefixOf_cons_ne _ _ (by decide)))
          (bool_ne_true
            (show lFalse.isPrefixOf ('N' :: (['a', 'N'] ++ r₂)) = false from
              isPrefixOf_cons_ne _ _ (by decide)))
          (parseNumberLex_headN _),
        if_pos (show lNaN.isPrefixOf ('N' :: (['a', 'N'] ++ r₂)) = true from
          isPrefixOf_append_self lNaN r₂)]
      rfl
    rw [if_neg hN] at h
    by_cases hI : lInf.isPrefixOf (ch :: rest) = true
    · rw [if_pos hI] at h
      obtain ⟨h1, h2⟩ := some_pair_eq h
      subst h1
      subst h2
      have hd : ch :: rest = lInf ++ ((ch :: rest).drop 8) := prefix_decomp hI
      refine ⟨'I', ['n', 'f', 'i', 'n', 'i', 't', 'y'], hd, by decide,
        ⟨['I', 'n', 'f', 'i', 'n', 'i', 't'], 'y', rfl, by decide⟩, ?_⟩
      intro r₂ hnc
      show parseValue (Nat.succ fuel)
        ('I' :: (['n', 'f', 'i', 'n', 'i', 't', 'y'] ++ r₂)) =
        some (Json.num lInf, r₂)
      rw [pv_keywords (by decide) (by decide) (by decide)
          (bool_ne_true (show lNull.isPrefixOf
              ('I' :: (['n', 'f', 'i', 'n', 'i', 't', 'y'] ++ r₂)) = false from
            isPrefixOf_cons_ne _ _ (by decide)))
          (bool_ne_true (show lTrue.isPrefixOf
              ('I' :: (['n', 'f', 'i', 'n', 'i', 't', 'y'] ++ r₂)) = false from
            isPrefixOf_cons_ne _ _ (by decide)))
          (bool_ne_true (show lFalse.isPrefixOf
              ('I' :: (['n', 'f', 'i', 'n', 'i', 't', 'y'] ++ r₂)) = false from
            isPrefixOf_cons_ne _ _ (by decide)))
          (parseNumberLex_headI _),
        if_neg (bool_ne_true (show lNaN.isPrefixOf
            ('I' :: (['n', 'f', 'i', 'n', 'i', 't', 'y'] ++ r₂)) = false from
          isPrefixOf_cons_ne _ _ (by decide))),
        if_pos (show lInf.isPrefixOf
            ('I' :: (['n', 'f', 'i', 'n', 'i', 't', 'y'] ++ r₂)) = true from
          isPrefixOf_append_self lInf r₂)]
      rfl
    rw [if_neg hI] at h
    by_cases hG : lNegInf.isPrefixOf (ch :: rest) = true
    · rw [if_pos hG] at h
      obtain ⟨h1, h2⟩ := some_pair_eq h
      subst h1
      subst h2
      have hd : ch :: rest = lNegInf ++ ((ch :: rest).drop 9) := prefix_decomp hG
      refine ⟨'-', ['I', 'n', 'f', 'i', 'n', 'i', 't', 'y'], hd, by decide,
        ⟨['-', 'I', 'n', 'f', 'i', 'n', 'i', 't'], 'y', rfl, by decide⟩, ?_⟩
      intro r₂ hnc
      show parseValue (Nat.succ fuel)
        ('-' :: (['I', 'n', 'f', 'i', 'n', 'i', 't', 'y'] ++ r₂)) =
        some (Json.num lNegInf, r₂)
      rw [pv_keywords (by decide) (by decide) (by decide)
          (bool_ne_true (show lNull.isPrefixOf
              ('-' :: (['I', 'n', 'f', 'i', 'n', 'i', 't', 'y'] ++ r₂)) = false from
            isPrefixOf_cons_ne _ _ (by decide)))
          (bool_ne_true (show lTrue.isPrefixOf
              ('-' :: (['I', 'n', 'f', 'i', 'n', 'i', 't', 'y'] ++ r₂)) = false from
            isPrefixOf_cons_ne _ _ (by decide)))
          (bool_ne_true (show lFalse.isPrefixOf
              ('-' :: (['I', 'n', 'f', 'i', 'n', 'i', 't', 'y'] ++ r₂)) = false from
            isPrefixOf_cons_ne _ _ (by decide)))
          (show parseNumberLex
              ('-' :: (['I', 'n', 'f', 'i', 'n', 'i', 't', 'y'] ++ r₂)) = none from
            parseNumberLex_negI _),
        if_neg (bool_ne_true (show lNaN.isPrefixOf
            ('-' :: (['I', 'n', 'f', 'i', 'n', 'i', 't', 'y'] ++ r₂)) = false from
          isPrefixOf_cons_ne _ _ (by decide))),
        if_neg (bool_ne_true (show lInf.isPrefixOf
            ('-' :: (['I', 'n', 'f', 'i', 'n', 'i', 't', 'y'] ++ r₂)) = false from
          isPrefixOf_cons_ne _ _ (by decide))),
        if_pos (show lNegInf.isPrefixOf
            ('-' :: (['I', 'n', 'f', 'i', 'n', 'i', 't', 'y'] ++ r₂)) = true from
          isPrefixOf_append_self lNegInf r₂)]
      rfl
    rw [if_neg hG] at h
    exact absurd h (by simp)
  · rw [hnum] at h
    obtain ⟨h1, h2⟩ := some_pair_eq h
    subst h1
    subst h2
    obtain ⟨hdec, hgt, ⟨chn, tn, hlex, hhd⟩, hrepl⟩ := PL_num hnum
    subst hlex
    have hvs : isValueStart chn = true := by
      rcases hhd with rfl | hd
      · decide
      · simp [isValueStart, hd]
    have hfacts : ¬ chn = '"' ∧ ¬ chn = '{' ∧ ¬ chn = '[' ∧
        ¬ chn = 'n' ∧ ¬ chn = 't' ∧ ¬ chn = 'f' := by
      rcases hhd with rfl | hd
      · exact ⟨by decide, by decide, by decide, by decide, by decide, by decide⟩
      · obtain ⟨a1, a2, a3, a4, a5, a6, _, _⟩ := dig_not_letters hd
        exact ⟨a1, a2, a3, a4, a5, a6⟩
    refine ⟨chn, tn, hdec, hvs, hgt, ?_⟩
    · intro r₂ hnc
      have hnum3 : parseNumberLex (chn :: (tn ++ r₂)) = some (chn :: tn, r₂) :=
        hrepl r₂ hnc
      show parseValue (Nat.succ fuel) (chn :: (tn ++ r₂)) =
        some (Json.num (chn :: tn), r₂)
      rw [pv_other _ hfacts.1 hfacts.2.1 hfacts.2.2.1,
        if_neg (bool_ne_true
          (show lNull.isPrefixOf (chn :: (tn ++ r₂)) = false from
            isPrefixOf_cons_ne _ _ (fun he => hfacts.2.2.2.1 he.symm))),
        if_neg (bool_ne_true
          (show lTrue.isPrefixOf (chn :: (tn ++ r₂)) = false from
            isPrefixOf_cons_ne _ _ (fun he => hfacts.2.2.2.2.1 he.symm))),
        if_neg (bool_ne_true
          (show lFalse.isPrefixOf (chn :: (tn ++ r₂)) = false from
            isPrefixOf_cons_ne _ _ (fun he => hfacts.2.2.2.2.2 he.symm))),
        hnum3]

theorem PL_all : ∀ fuel, PLvP fuel ∧ PLaP fuel ∧ PLoP fuel := by
  intro fuel
  induction fuel with
  | zero =>
    refine ⟨?_, ?_, ?_⟩
    · intro s v r h
      rw [pv_zero] at h
      exact absurd h (by simp)
    · intro s vs r h
      rw [pai_zero] at h
      exact absurd h (by simp)
    · intro s kvs r h
      rw [poi_zero] at h
      exact absurd h (by simp)
  | succ n ih =>
    exact ⟨PLv_succ n ih.2.1 ih.2.2, PLa_succ n ih.1 ih.2.1,
      PLo_succ n ih.1 ih.2.2⟩

/-! #### From the prefix lemma to `json.loads` and the Normalizer -/

theorem countNonWs_ws_append {w : List Char} (x : List Char)
    (hw : AllB isJsonWs w) : countNonWs (w ++ x) = countNonWs x := by
  unfold countNonWs
  rw [List.filter_append]
  have hnil : w.filter (fun c => !isJsonWs c) = [] := by
    induction w with
    | nil => rfl
    | cons a t ih =>
      obtain ⟨ha, ht⟩ := allB_cons hw
      simp [List.filter_cons, ha, ih ht]
  rw [hnil, List.nil_append]

theorem countNonWs_append_ws {w : List Char} (x : List Char)
    (hw : AllB isJsonWs w) : countNonWs (x ++ w) = countNonWs x := by
  unfold countNonWs
  rw [List.filter_append]
  have hnil : w.filter (fun c => !isJsonWs c) = [] := by
    induction w with
    | nil => rfl
    | cons a t ih =>
      obtain ⟨ha, ht⟩ := allB_cons hw
      simp [List.filter_cons, ha, ih ht]
  rw [hnil, List.append_nil]

theorem pstrip_id {c : List Char} (h1 : HeadStop isPyWs c) (h2 : GoodTail c) :
    pstrip c = c := by
  unfold pstrip lstripWs
  rw [dropWhile_headstop h1]
  have h3 : rstripWs (c ++ []) = c :=
    rstripWs_append (fun x hx => absurd hx (by simp)) h2
  rw [List.append_nil] at h3
  exact h3

theorem take_append_exact (l₁ l₂ : List Char) (n : Nat) :
    (l₁ ++ l₂).take (l₁.length + n) = l₁ ++ l₂.take n := by
  induction l₁ with
  | nil => simp
  | cons a t ih =>
    simp only [List.cons_append, List.length_cons]
    rw [show t.length + 1 + n = t.length + n + 1 by omega, List.take_succ_cons, ih]

/-- A successful `json.loads` pins down the stripped payload: it is the
value's consumed prefix, which starts with a value-start character, has the
same non-whitespace count as the input, and itself decodes to the value. -/
theorem json_loads_core {p : List Char} {v : Json} (h : json_loads p = some v) :
    ∃ ch ct, pstrip p = ch :: ct ∧ isValueStart ch = true ∧
      json_loads (ch :: ct) = some v ∧ p ≠ [] := by
  unfold json_loads at h
  rcases hpv : parseValue (4 * countNonWs p + 4) (skipWs p) with _ | ⟨v', r⟩
  · rw [hpv] at h
    exact absurd h (by simp)
  rw [hpv] at h
  have h2 : (if (skipWs r).isEmpty = true then some v' else none) = some v := h
  by_cases hemp : (skipWs r).isEmpty = true
  swap
  · rw [if_neg hemp] at h2
    exact absurd h2 (by simp)
  rw [if_pos hemp] at h2
  injection h2 with hv'
  subst hv'
  have hskr : skipWs r = [] := List.isEmpty_iff.mp hemp
  obtain ⟨ch, ct, hdec, hvs, hgt, hrep⟩ := (PL_all (4 * countNonWs p + 4)).1 _ v' r hpv
  have facts := valueStart_facts hvs
  have hp : p = p.takeWhile isJsonWs ++ ((ch :: ct) ++ r) := by
    conv_lhs => rw [skipWs_decomp p]
    rw [hdec]
  set jw := p.takeWhile isJsonWs with hjwdef
  have hjw : AllB isJsonWs jw := skipWs_all p
  have hr_all : AllB isJsonWs r := by
    have := List.dropWhile_eq_nil_iff.mp hskr
    exact fun x hx => this x hx
  have hpyw_jw : AllB isPyWs jw := fun x hx => jsonWs_pyWs (hjw x hx)
  have hpyw_r : AllB isPyWs r := fun x hx => jsonWs_pyWs (hr_all x hx)
  have hps : pstrip p = ch :: ct := by
    have h0 : pstrip (jw ++ (ch :: ct) ++ r) = ch :: ct :=
      pstrip_parts hpyw_jw hpyw_r (headStop_cons ct facts.1) hgt
    rw [hp, ← List.append_assoc]
    exact h0
  have hcount : countNonWs p = countNonWs (ch :: ct) := by
    rw [hp, countNonWs_ws_append _ hjw]
    exact countNonWs_append_ws _ hr_all
  have hpv2 : parseValue (4 * countNonWs p + 4) (ch :: ct) = some (v', []) := by
    have h0 := hrep [] (by decide)
    rw [List.append_nil] at h0
    exact h0
  have hjl : json_loads (ch :: ct) = some v' := by
    unfold json_loads
    have hsw : skipWs (ch :: ct) = ch :: ct :=
      dropWhile_headstop (headStop_cons ct facts.2.1)
    rw [hsw, ← hcount, hpv2]
    rfl
  have hne : p ≠ [] := by
    intro hnil
    rw [hnil] at hp
    simp at hp
  exact ⟨ch, ct, hps, hvs, hjl, hne⟩

theorem cleanedText_noFence {raw : List Char} {ch : Char} {ct : List Char}
    (hps : pstrip raw = ch :: ct) (hne : ch ≠ '`') :
    cleanedText raw = ch :: ct := by
  unfold cleanedText
  rw [hps]
  have hf1 : fenceJson.isPrefixOf (ch :: ct) = false :=
    isPrefixOf_cons_ne _ _ (fun he => hne he.symm)
  have hf2 : fence3.isPrefixOf (ch :: ct) = false :=
    isPrefixOf_cons_ne _ _ (fun he => hne he.symm)
  rw [hf1]
  simp only [Bool.false_eq_true, if_false]
  rw [hf2]
  simp only [Bool.false_eq_true, if_false]

theorem strip_newline_wrap (p : List Char) :
    pstrip ('\n' :: (p ++ ['\n'])) = pstrip p := by
  have h1 : pstrip (['\n'] ++ p ++ ['\n']) = pstrip p :=
    pstrip_ws_wrap p (by unfold AllB; decide) (by unfold AllB; decide)
  have he : ['\n'] ++ p ++ ['\n'] = '\n' :: (p ++ ['\n']) := by simp
  rw [he] at h1
  exact h1

theorem fence_body_take (p : List Char) :
    ('\n' :: (p ++ ('\n' :: fence3))).take
        (('\n' :: (p ++ ('\n' :: fence3))).length - 3) =
      '\n' :: (p ++ ['\n']) := by
  have hlen : ('\n' :: (p ++ ('\n' :: fence3))).length - 3 = p.length + 2 := by
    simp only [List.length_cons, List.length_append, fence3, List.length_nil]
    omega
  rw [hlen, show p.length + 2 = (p.length + 1) + 1 from rfl, List.take_succ_cons,
    take_append_exact p ('\n' :: fence3) 1]
  rfl

theorem cleanedText_wrapJson (p : List Char) :
    cleanedText (wrapJson p) = pstrip p := by
  have hgt : GoodTail (wrapJson p) :=
    ⟨fenceJson ++ ('\n' :: (p ++ ('\n' :: ['`', '`']))), '`',
      by simp [wrapJson, fenceJson, fence3, List.append_assoc], by decide⟩
  have hps : pstrip (wrapJson p) = wrapJson p :=
    pstrip_id (show HeadStop isPyWs (wrapJson p) from
      (by decide : isPyWs '`' = false)) hgt
  unfold cleanedText
  rw [hps, show wrapJson p = fenceJson ++ ('\n' :: (p ++ ('\n' :: fence3))) from rfl,
    isPrefixOf_append_self, if_pos rfl, pycut_fence fenceJson 7 rfl,
    fence_body_take, strip_newline_wrap]

theorem cleanedText_wrapPlain (p : List Char) :
    cleanedText (wrapPlain p) = pstrip p := by
  have hgt : GoodTail (wrapPlain p) :=
    ⟨fence3 ++ ('\n' :: (p ++ ('\n' :: ['`', '`']))), '`',
      by simp [wrapPlain, fence3, List.append_assoc], by decide⟩
  have hps : pstrip (wrapPlain p) = wrapPlain p :=
    pstrip_id (show HeadStop isPyWs (wrapPlain p) from
      (by decide : isPyWs '`' = false)) hgt
  unfold cleanedText
  rw [hps, show wrapPlain p = fence3 ++ ('\n' :: (p ++ ('\n' :: fence3))) from rfl]
  have hfj : fenceJson.isPrefixOf (fence3 ++ ('\n' :: (p ++ ('\n' :: fence3)))) =
      false := by
    have h9 : fenceJson = fence3 ++ String.toList "json" := rfl
    rw [h9, isPrefixOf_append_cancel]
    exact isPrefixOf_cons_ne _ _ (by decide)
  rw [hfj]
  simp only [Bool.false_eq_true, if_false]
  rw [isPrefixOf_append_self, if_pos rfl, pycut_fence fence3 3 rfl,
    fence_body_take, strip_newline_wrap]

theorem normalize_of_clean {raw : List Char} {v : Json}
    (hne : raw.isEmpty = false) (hcl : json_loads (cleanedText raw) = some v) :
    normalizeResponse raw = .ok v := by
  unfold normalizeResponse
  rw [hne]
  simp only [Bool.false_eq_true, if_false]
  rw [hcl]

/-- Claim C1: for every payload text that decodes as valid JSON matching the
section 4.1 schema, the Normalizer applied to the payload itself, to the
payload wrapped in generic ``` fences, and to the payload wrapped in
```json / ``` fences returns the same decoded roadmap as decoding the
payload directly: fence stripping is lossless on the payload. -/
theorem c1 (p : List Char) (v : Json) (hj : json_loads p = some v)
    (hs : matchesSchema v = true) :
    normalizeResponse p = .ok v ∧
    normalizeResponse (wrapPlain p) = .ok v ∧
    normalizeResponse (wrapJson p) = .ok v := by
  obtain ⟨ch, ct, hps, hvs, hjl, hne⟩ := json_loads_core hj
  have facts := valueStart_facts hvs
  have hclean : cleanedText p = ch :: ct := cleanedText_noFence hps facts.2.2.1
  have hempty : p.isEmpty = false := by
    cases p with
    | nil => exact absurd rfl hne
    | cons a t => rfl
  refine ⟨?_, ?_, ?_⟩
  · refine normalize_of_clean hempty ?_
    rw [hclean]
    exact hjl
  · refine normalize_of_clean rfl ?_
    rw [cleanedText_wrapPlain, hps]
    exact hjl
  · refine normalize_of_clean rfl ?_
    rw [cleanedText_wrapJson, hps]
    exact hjl

/-- Claim C1 witness: a concrete schema-conformant payload, decoded equally
bare, ```-wrapped and ```json-wrapped. -/
theorem c1_witness :
    json_loads (String.toList "\x7b\"roadmap_name\":\"X\",\"gap_analysis\":\"g\",\"timeline\":[],\"estimated_time\":\"t\"\x7d") =
      some (Json.obj
        [(String.toList "roadmap_name", Json.str (String.toList "X")),
         (String.toList "gap_analysis", Json.str (String.toList "g")),
         (String.toList "timeline", Json.arr []),
         (String.toList "estimated_time", Json.str (String.toList "t"))]) ∧
    matchesSchema (Json.obj
        [(String.toList "roadmap_name", Json.str (String.toList "X")),
         (String.toList "gap_analysis", Json.str (String.toList "g")),
         (String.toList "timeline", Json.arr []),
         (String.toList "estimated_time", Json.str (String.toList "t"))]) = true ∧
    (normalizeResponse (String.toList "\x7b\"roadmap_name\":\"X\",\"gap_analysis\":\"g\",\"timeline\":[],\"estimated_time\":\"t\"\x7d") =
        NormOutcome.ok (Json.obj
          [(String.toList "roadmap_name", Json.str (String.toList "X")),
           (String.toList "gap_analysis", Json.str (String.toList "g")),
           (String.toList "timeline", Json.arr []),
           (String.toList "estimated_time", Json.str (String.toList "t"))]) ∧
      normalizeResponse (wrapPlain (String.toList "\x7b\"roadmap_name\":\"X\",\"gap_analysis\":\"g\",\"timeline\":[],\"estimated_time\":\"t\"\x7d")) =
        NormOutcome.ok (Json.obj
          [(String.toList "roadmap_name", Json.str (String.toList "X")),
           (String.toList "gap_analysis", Json.str (String.toList "g")),
           (String.toList "timeline", Json.arr []),
           (String.toList "estimated_time", Json.str (String.toList "t"))]) ∧
      normalizeResponse (wrapJson (String.toList "\x7b\"roadmap_name\":\"X\",\"gap_analysis\":\"g\",\"timeline\":[],\"estimated_time\":\"t\"\x7d")) =
        NormOutcome.ok (Json.obj
          [(String.toList "roadmap_name", Json.str (String.toList "X")),
           (String.toList "gap_analysis", Json.str (String.toList "g")),
           (String.toList "timeline", Json.arr []),
           (String.toList "estimated_time", Json.str (String.toList "t"))])) :=
  ⟨rfl, rfl, c1 _ _ rfl rfl⟩
